import Mathlib

/-!
Verification of the saisonxform file-processing and archival pipeline.

This development gives a shallow embedding of the core functions of the
repository (`month_utils.py`, `selectors.py`, `io.py`, and the `run`
command of `cli.py`) as executable Lean definitions, and proves the
specified properties about them.  Randomness (`random.randint`,
`random.choices`, `random.sample`) is modelled by explicit oracle
parameters; filesystem state is modelled by explicit lists of paths.
-/

namespace SaisonXForm

/-! ## Basic character/string helpers (modelling Python `str` operations) -/

/-- Numeric value of a list of ASCII digit characters, most significant first
(models Python `int(s)` on an all-digit string). -/
def natOfDigits : List Char → Nat :=
  List.foldl (fun n c => 10 * n + (c.toNat - 48)) 0

/-- Python `s.isdigit()`: the string is non-empty and all characters are digits
(ASCII model). -/
def pyIsdigit (s : String) : Bool :=
  !s.data.isEmpty && s.data.all Char.isDigit

/-! ## month_utils.py : `get_month_from_filename`

Source (`src/saisonxform/month_utils.py` lines 19-45): match `^(\d{6})_`,
then validate `1900 <= year <= 2100` and `1 <= month <= 12`. -/

/-- Embedding of `get_month_from_filename`.  The regex `^(\d{6})_` requires the
first six characters to be digits immediately followed by `'_'`. -/
def getMonthFromFilename (filename : String) : Option String :=
  let cs := filename.data
  let p6 := cs.take 6
  if p6.length = 6 ∧ (∀ c ∈ p6, c.isDigit) ∧ cs[6]? = some '_' then
    let year := natOfDigits (p6.take 4)
    let mon := natOfDigits (p6.drop 4)
    if 1900 ≤ year ∧ year ≤ 2100 ∧ 1 ≤ mon ∧ mon ≤ 12 then
      some (String.mk p6)
    else none
  else none

/-! ## month_utils.py : `filter_files_by_months`

Source lines 136-161: an empty `months` list means no filtering; otherwise a
file is kept iff its extracted month is non-None and belongs to the set. -/

/-- Embedding of `filter_files_by_months` (files are identified by filename). -/
def filterFilesByMonths (csvFiles : List String) (months : List String) : List String :=
  if months = [] then csvFiles
  else csvFiles.filter (fun f =>
    match getMonthFromFilename f with
    | some m => decide (m ∈ months)
    | none => false)

/-! ## Claim C7 -/

/-- Claim C7: `get_month_from_filename` returns the 6-digit prefix exactly when
the filename starts with six digits immediately followed by `'_'`, the prefix's
year lies in [1900, 2100] and its month part lies in [1, 12]; in every other
case it returns none.  The stated examples are included. -/
theorem C7_get_month_from_filename_spec :
    (∀ (f m : String), getMonthFromFilename f = some m ↔
      (m.data.length = 6 ∧ (∀ c ∈ m.data, c.isDigit) ∧
        (∃ rest : List Char, f.data = m.data ++ '_' :: rest) ∧
        1900 ≤ natOfDigits (m.data.take 4) ∧ natOfDigits (m.data.take 4) ≤ 2100 ∧
        1 ≤ natOfDigits (m.data.drop 4) ∧ natOfDigits (m.data.drop 4) ≤ 12))
    ∧ getMonthFromFilename "202510_x.csv" = some "202510"
    ∧ getMonthFromFilename "202513_x.csv" = none
    ∧ getMonthFromFilename "189912_x.csv" = none := by
  refine ⟨?_, by decide, by decide, by decide⟩
  intro f m
  constructor
  · intro h
    unfold getMonthFromFilename at h
    simp only at h
    split at h
    · next hc =>
      obtain ⟨hlen, hdig, hget⟩ := hc
      split at h
      · next hr =>
        obtain ⟨h1, h2, h3, h4⟩ := hr
        have hm : m = String.mk (f.data.take 6) := by
          exact (Option.some.injEq _ _).mp h.symm
        have hmdata : m.data = f.data.take 6 := by rw [hm]
        refine ⟨by rw [hmdata]; exact hlen, by rw [hmdata]; exact hdig, ?_, ?_, ?_, ?_, ?_⟩
        · refine ⟨f.data.drop 7, ?_⟩
          have h6 : 6 < f.data.length := by
            have := List.getElem?_eq_some.mp hget
            exact this.1
          have hdrop : f.data.drop 6 = '_' :: f.data.drop 7 := by
            have := List.drop_eq_getElem_cons h6
            rw [this]
            have : f.data[6] = '_' := by
              have h2 := List.getElem?_eq_some.mp hget
              exact h2.2
            rw [this]
          conv_lhs => rw [← List.take_append_drop 6 f.data]
          rw [hdrop, hmdata]
        · rw [hmdata]; exact h1
        · rw [hmdata]; exact h2
        · rw [hmdata]; exact h3
        · rw [hmdata]; exact h4
      · exact absurd h (by simp)
    · exact absurd h (by simp)
  · rintro ⟨hlen, hdig, ⟨rest, hdecomp⟩, h1, h2, h3, h4⟩
    unfold getMonthFromFilename
    simp only
    have htake : f.data.take 6 = m.data := by
      rw [hdecomp, List.take_append_of_le_length (by omega)]
      exact List.take_of_length_le (by omega)
    have hget : f.data[6]? = some '_' := by
      rw [hdecomp, List.getElem?_append_right (by omega)]
      simp [hlen]
    rw [if_pos ⟨by rw [htake]; exact hlen, by rw [htake]; exact hdig, hget⟩]
    rw [htake]
    rw [if_pos ⟨h1, h2, h3, h4⟩]

/-! ## Claim C8 -/

/-- Claim C8: `filter_files_by_months` with an empty requested month list
returns all input files unchanged, while with a non-empty list it returns
exactly the files whose extracted month key is a member of the list; a
non-empty list matching no file yields an empty result, distinct from the
empty-list case. -/
theorem C8_filter_files_by_months_spec :
    (∀ files : List String, filterFilesByMonths files [] = files)
    ∧ (∀ (files months : List String), months ≠ [] →
        filterFilesByMonths files months
          = files.filter (fun f => decide (∃ m ∈ months, getMonthFromFilename f = some m)))
    ∧ filterFilesByMonths ["202509_c.csv"] ["202510"] = []
    ∧ filterFilesByMonths ["202509_c.csv"] [] = ["202509_c.csv"] := by
  refine ⟨?_, ?_, by decide, by decide⟩
  · intro files
    simp [filterFilesByMonths]
  · intro files months hne
    unfold filterFilesByMonths
    rw [if_neg hne]
    apply List.filter_congr
    intro f _
    cases h : getMonthFromFilename f with
    | none => simp [h]
    | some m0 =>
      simp only [h, Option.some.injEq, decide_eq_decide]
      constructor
      · intro hm; exact ⟨m0, hm, rfl⟩
      · rintro ⟨m, hm, hEq⟩; exact hEq ▸ hm

/-- Witness for C8: the non-empty-months clause applied at a concrete input. -/
theorem C8_filter_files_by_months_witness :
    filterFilesByMonths ["202510_a.csv", "202509_c.csv"] ["202510"]
      = List.filter (fun f => decide (∃ m ∈ ["202510"], getMonthFromFilename f = some m))
          ["202510_a.csv", "202509_c.csv"] := by
  exact C8_filter_files_by_months_spec.2.1 ["202510_a.csv", "202509_c.csv"] ["202510"] (by decide)

/-! ## selectors.py : `sample_attendee_ids`

Source (`src/saisonxform/selectors.py` lines 68-145).  The calls into the
`random` module are modelled by an oracle: `choosePrimary` stands for
`random.choices(primary_candidates, weights, k=1)[0]` (the weights only shape
the distribution, which the oracle abstracts), and `sampleFn pool n` stands
for `random.sample(pool, n)`. -/

/-- Oracle supplying the outcomes of the `random` calls in
`sample_attendee_ids`. -/
structure SampleOracle where
  choosePrimary : List String → String
  sampleFn : List String → Nat → List String

/-- Validity of the weighted-choice oracle: `random.choices` always returns an
element of the candidate list. -/
def ValidChoose (o : SampleOracle) : Prop :=
  ∀ l : List String, l ≠ [] → o.choosePrimary l ∈ l

/-- Validity of the sampling oracle: `random.sample(pool, n)` (with
`n ≤ len(pool)`) returns `n` elements drawn without replacement, i.e. a list
of length `n` whose multiset is contained in the pool's multiset. -/
def ValidSample (o : SampleOracle) : Prop :=
  ∀ (pool : List String) (n : Nat), n ≤ pool.length →
    (o.sampleFn pool n).length = n ∧ (o.sampleFn pool n).Subperm pool

/-- The `primary_candidates` list built in steps 1 of the algorithm: `"2"`
first (if present in the pool), then `"1"` (if present). -/
def primaryCandidates (available_ids : List String) : List String :=
  (if "2" ∈ available_ids then ["2"] else [])
    ++ (if "1" ∈ available_ids then ["1"] else [])

/-- The pool with every copy of the chosen primary ID removed (source:
`remaining_pool = [id_str for id_str in available_ids if id_str != primary_id]`). -/
def remainingPool (available_ids : List String) (primary_id : String) : List String :=
  available_ids.filter (fun id_str => id_str ≠ primary_id)

/-- Step 2 of `sample_attendee_ids` once a weighted primary has been drawn:
`remaining_count = count - 1`, `sample_count = min(remaining_count,
len(remaining_pool))`, extend with `random.sample` when positive. -/
def primarySelected (o : SampleOracle) (count : Int) (available_ids : List String)
    (primary_id : String) : List String :=
  if 0 < count - 1 then
    if 0 < min (count - 1) ((remainingPool available_ids primary_id).length : Int) then
      primary_id :: o.sampleFn (remainingPool available_ids primary_id)
        (min (count - 1) ((remainingPool available_ids primary_id).length : Int)).toNat
    else [primary_id]
  else [primary_id]

/-- The list `selected_ids` as it stands just before the sort (steps 1-2 of
`sample_attendee_ids`): empty for `count <= 0`; weighted-primary branch when a
house ID is present; otherwise a plain `random.sample` of
`min(count, len(available_ids))` elements. -/
def selectedIdsOf (o : SampleOracle) (count : Int) (available_ids : List String) :
    List String :=
  if count ≤ 0 then []
  else if primaryCandidates available_ids ≠ [] then
    primarySelected o count available_ids (o.choosePrimary (primaryCandidates available_ids))
  else if 0 < min count (available_ids.length : Int) then
    o.sampleFn available_ids (min count (available_ids.length : Int)).toNat
  else []

/-- The Python sort key `int(x) if x.isdigit() else float("inf")`; `none`
plays the role of `float("inf")`. -/
def idSortKey (s : String) : Option Nat :=
  if pyIsdigit s then some (natOfDigits s.data) else none

/-- Boolean comparison induced by the sort key (non-numeric strings compare
as `+∞`). -/
def idLe (a b : String) : Bool :=
  match idSortKey a, idSortKey b with
  | some x, some y => decide (x ≤ y)
  | some _, none => true
  | none, some _ => false
  | none, none => true

/-- Propositional form of `idLe`. -/
def idLeP (a b : String) : Prop := idLe a b = true

instance : DecidableRel idLeP := fun a b =>
  inferInstanceAs (Decidable (idLe a b = true))

instance : IsTrans String idLeP where
  trans := by
    intro a b c h1 h2
    unfold idLeP idLe at *
    rcases ha : idSortKey a with _ | x <;> rcases hb : idSortKey b with _ | y <;>
      rcases hc : idSortKey c with _ | z <;> simp_all <;> omega

instance : IsTotal String idLeP where
  total := by
    intro a b
    unfold idLeP idLe
    rcases ha : idSortKey a with _ | x <;> rcases hb : idSortKey b with _ | y <;>
      simp_all <;> omega

/-- Step 3 of `sample_attendee_ids`: `selected_ids.sort(key=...)`.  Python's
sort is a stable comparison sort; a stable insertion sort models it. -/
def sortIds (l : List String) : List String := List.insertionSort idLeP l

/-- Step 4 of `sample_attendee_ids`: right-pad with `""` to 8 slots, then
truncate to exactly 8. -/
def padTo8 (selected_ids : List String) : List String :=
  (selected_ids ++ List.replicate (8 - selected_ids.length) "").take 8

/-- Embedding of `sample_attendee_ids` (list-returning form;
`return_dict=True` merely re-labels the same 8 slots as `ID1..ID8`). -/
def sampleAttendeeIds (o : SampleOracle) (count : Int) (available_ids : List String) :
    List String :=
  padTo8 (sortIds (selectedIdsOf o count available_ids))

/-- Deterministic oracle used for witnesses and counterexamples: it always
picks the first candidate and samples the first `n` pool elements, which is a
possible behaviour of the `random` module. -/
def takeOracle : SampleOracle where
  choosePrimary := fun l => l.headD ""
  sampleFn := fun pool n => pool.take n

theorem takeOracle_validChoose : ValidChoose takeOracle := by
  intro l hl
  cases l with
  | nil => exact absurd rfl hl
  | cons a t => exact List.mem_cons_self a t

theorem takeOracle_validSample : ValidSample takeOracle := by
  intro pool n hn
  constructor
  · simpa [takeOracle] using hn
  · exact (List.take_sublist n pool).subperm

/-! ### Structural lemmas about the sampler -/

theorem primaryCandidates_subset (pool : List String) :
    ∀ x ∈ primaryCandidates pool, x ∈ pool := by
  intro x hx
  unfold primaryCandidates at hx
  rcases List.mem_append.mp hx with h | h <;> split at h <;> simp_all

theorem length_filter_ne : ∀ (l : List String) (a : String), l.Nodup → a ∈ l →
    (l.filter (fun x => x ≠ a)).length + 1 = l.length := by
  intro l a hn ha
  induction l with
  | nil => cases ha
  | cons hd t ih =>
    rw [List.filter_cons]
    by_cases hda : hd = a
    · subst hda
      rw [if_neg (by simp)]
      have hself : t.filter (fun x => x ≠ hd) = t := by
        apply List.filter_eq_self.mpr
        intro x hx
        simp only [decide_eq_true_eq]
        intro hEq
        exact ((List.nodup_cons.mp hn).1) (hEq ▸ hx)
      rw [hself]
      simp
    · rw [if_pos (by simp [hda])]
      have ha2 : a ∈ t := by
        rcases List.mem_cons.mp ha with h | h
        · exact absurd h.symm hda
        · exact h
      simp only [List.length_cons]
      rw [← ih (List.nodup_cons.mp hn).2 ha2]

theorem subperm_nodup {l₁ l₂ : List String} (h : l₁.Subperm l₂) (hn : l₂.Nodup) :
    l₁.Nodup := by
  obtain ⟨l, hperm, hsubl⟩ := h
  exact hperm.nodup_iff.mp (hsubl.nodup hn)

theorem remainingPool_subset (pool : List String) (p : String) :
    ∀ s ∈ remainingPool pool p, s ∈ pool := by
  intro s hsm
  exact List.mem_of_mem_filter hsm

theorem remainingPool_not_primary (pool : List String) (p : String) :
    ∀ s ∈ remainingPool pool p, s ≠ p := by
  intro s hsm
  have := List.of_mem_filter hsm
  simpa using this

theorem primarySelected_spec (o : SampleOracle) (hs : ValidSample o)
    (k : Nat) (pool : List String) (p : String)
    (hk1 : 1 ≤ k) (hlen : k ≤ pool.length) (hnd : pool.Nodup) (hp : p ∈ pool) :
    (primarySelected o (k : Int) pool p).length = k ∧
    (primarySelected o (k : Int) pool p).Nodup ∧
    (∀ s ∈ primarySelected o (k : Int) pool p, s ∈ pool) := by
  have hrlen : (remainingPool pool p).length + 1 = pool.length :=
    length_filter_ne pool p hnd hp
  unfold primarySelected
  by_cases h1 : (0 : Int) < (k : Int) - 1
  · rw [if_pos h1]
    have hmin : min ((k : Int) - 1) ((remainingPool pool p).length : Int)
        = (k : Int) - 1 := by
      apply min_eq_left
      omega
    rw [hmin, if_pos h1]
    have htn : ((k : Int) - 1).toNat = k - 1 := by omega
    rw [htn]
    obtain ⟨hslen, hsub⟩ := hs (remainingPool pool p) (k - 1) (by omega)
    have hsnodup : (o.sampleFn (remainingPool pool p) (k - 1)).Nodup :=
      subperm_nodup hsub (hnd.filter _)
    refine ⟨?_, ?_, ?_⟩
    · simp only [List.length_cons, hslen]
      omega
    · rw [List.nodup_cons]
      refine ⟨?_, hsnodup⟩
      intro hmem
      exact remainingPool_not_primary pool p _ (hsub.subset hmem) rfl
    · intro s hsm
      rcases List.mem_cons.mp hsm with h | h
      · exact h ▸ hp
      · exact remainingPool_subset pool p _ (hsub.subset h)
  · rw [if_neg h1]
    have hk : k = 1 := by omega
    subst hk
    refine ⟨rfl, List.nodup_singleton _, ?_⟩
    intro s hsm
    rcases List.mem_singleton.mp hsm with rfl
    exact hp

theorem selectedIdsOf_spec (o : SampleOracle) (hc : ValidChoose o) (hs : ValidSample o)
    (k : Nat) (pool : List String) (hlen : k ≤ pool.length) (hnd : pool.Nodup) :
    (selectedIdsOf o (k : Int) pool).length = k ∧
    (selectedIdsOf o (k : Int) pool).Nodup ∧
    (∀ s ∈ selectedIdsOf o (k : Int) pool, s ∈ pool) := by
  unfold selectedIdsOf
  by_cases hk0 : (k : Int) ≤ 0
  · have : k = 0 := by omega
    subst this
    simp
  · rw [if_neg hk0]
    have hk1 : 1 ≤ k := by omega
    by_cases hpc : primaryCandidates pool ≠ []
    · rw [if_pos hpc]
      exact primarySelected_spec o hs k pool _ hk1 hlen hnd
        (primaryCandidates_subset pool _ (hc _ hpc))
    · rw [if_neg hpc]
      have hmin : min (k : Int) (pool.length : Int) = (k : Int) := by
        apply min_eq_left
        omega
      rw [hmin, if_pos (by omega)]
      have htn : ((k : Int)).toNat = k := by omega
      rw [htn]
      obtain ⟨hslen, hsub⟩ := hs pool k hlen
      exact ⟨hslen, subperm_nodup hsub hnd, hsub.subset⟩

theorem sortIds_perm (l : List String) : (sortIds l).Perm l :=
  List.perm_insertionSort idLeP l

theorem sortIds_sorted (l : List String) : (sortIds l).Pairwise idLeP :=
  List.sorted_insertionSort idLeP l

theorem filter_replicate_empty (n : Nat) :
    (List.replicate n "").filter (fun s => decide (s ≠ "")) = [] := by
  induction n with
  | zero => rfl
  | succ k ih => simp [List.replicate_succ, ih]

/-! ## Claim C1 (counterexample, amended theorem, witness) -/

/-- Claim C1, counterexample: as stated over *every* pool of ID strings the
claim fails.  With the duplicated pool `["3", "3"]` and `k = 2` every possible
draw yields the slots `["3", "3", "", ..., ""]`, which contain a duplicate
non-empty value; with the pool `["", "5"]` (which contains an empty-string ID)
and `k = 2` the result has only one non-empty slot instead of two.  The final
conjuncts check that the oracle's draws are legitimate `random.sample`
outcomes. -/
theorem C1_sample_attendee_ids_counterexample :
    (sampleAttendeeIds takeOracle 2 ["3", "3"] = ["3", "3", "", "", "", "", "", ""] ∧
      ¬ ((sampleAttendeeIds takeOracle 2 ["3", "3"]).filter (fun s => s ≠ "")).Nodup) ∧
    (sampleAttendeeIds takeOracle 2 ["", "5"] = ["5", "", "", "", "", "", "", ""] ∧
      ((sampleAttendeeIds takeOracle 2 ["", "5"]).filter (fun s => s ≠ "")).length = 1) ∧
    (takeOracle.sampleFn ["3", "3"] 2).length = 2 ∧
    (takeOracle.sampleFn ["3", "3"] 2).Subperm ["3", "3"] ∧
    (takeOracle.sampleFn ["", "5"] 2).length = 2 ∧
    (takeOracle.sampleFn ["", "5"] 2).Subperm ["", "5"] := by
  refine ⟨⟨by decide, by decide⟩, ⟨by decide, by decide⟩, by decide, ?_, by decide, ?_⟩
  · exact (List.take_sublist 2 _).subperm
  · exact (List.take_sublist 2 _).subperm

/-- Claim C1, amended: for every count `k` with `0 ≤ k ≤ 8` and every pool of
*pairwise-distinct, non-empty* ID strings with `|pool| ≥ k`, any possible run
of `sample_attendee_ids(k, pool, ...)` returns exactly 8 slots, of which
exactly `k` are non-empty, with no duplicate non-empty values and the
non-empty values ascending in the numeric key order; for `count ≤ 0` all 8
slots are empty. -/
theorem C1_sample_attendee_ids_amended
    (o : SampleOracle) (hc : ValidChoose o) (hs : ValidSample o)
    (k : Nat) (pool : List String)
    (hk : k ≤ 8) (hlen : k ≤ pool.length)
    (hnd : pool.Nodup) (hne : ∀ s ∈ pool, s ≠ "") :
    (sampleAttendeeIds o (k : Int) pool).length = 8 ∧
    ((sampleAttendeeIds o (k : Int) pool).filter (fun s => s ≠ "")).length = k ∧
    ((sampleAttendeeIds o (k : Int) pool).filter (fun s => s ≠ "")).Nodup ∧
    ((sampleAttendeeIds o (k : Int) pool).filter (fun s => s ≠ "")).Pairwise idLeP ∧
    (∀ c : Int, c ≤ 0 → sampleAttendeeIds o c pool = List.replicate 8 "") := by
  obtain ⟨hsl, hsnd, hsmem⟩ := selectedIdsOf_spec o hc hs k pool hlen hnd
  set sel := selectedIdsOf o (k : Int) pool with hsel
  have hperm := sortIds_perm sel
  have hsorted := sortIds_sorted sel
  have hslen : (sortIds sel).length = k := hperm.length_eq.trans hsl
  have hsndup : (sortIds sel).Nodup := hperm.nodup_iff.mpr hsnd
  have hsm : ∀ s ∈ sortIds sel, s ∈ pool := fun s hsm => hsmem s (hperm.mem_iff.mp hsm)
  have hsne : ∀ s ∈ sortIds sel, s ≠ "" := fun s h => hne s (hsm s h)
  have hout : sampleAttendeeIds o (k : Int) pool
      = sortIds sel ++ List.replicate (8 - k) "" := by
    unfold sampleAttendeeIds padTo8
    rw [← hsel, hslen]
    apply List.take_of_length_le
    simp only [List.length_append, List.length_replicate, hslen]
    omega
  have hfilter : (sampleAttendeeIds o (k : Int) pool).filter (fun s => s ≠ "")
      = sortIds sel := by
    rw [hout, List.filter_append, filter_replicate_empty,
      List.filter_eq_self.mpr (fun a ha => by
        simp only [ne_eq, decide_eq_true_eq]
        exact hsne a ha)]
    simp
  refine ⟨?_, ?_, ?_, ?_, ?_⟩
  · rw [hout]
    simp only [List.length_append, List.length_replicate, hslen]
    omega
  · rw [hfilter, hslen]
  · rw [hfilter]; exact hsndup
  · rw [hfilter]; exact hsorted
  · intro c hc0
    unfold sampleAttendeeIds selectedIdsOf
    rw [if_pos hc0]
    rfl

/-- Witness for the amended C1: a concrete valid oracle, `k = 3`, and the pool
`["1", "2", "3", "4"]`. -/
theorem C1_sample_attendee_ids_witness :
    (sampleAttendeeIds takeOracle (3 : Nat) ["1", "2", "3", "4"]).length = 8 ∧
    ((sampleAttendeeIds takeOracle (3 : Nat) ["1", "2", "3", "4"]).filter
      (fun s => s ≠ "")).length = 3 := by
  have h := C1_sample_attendee_ids_amended takeOracle takeOracle_validChoose
    takeOracle_validSample 3 ["1", "2", "3", "4"] (by decide) (by decide)
    (by decide) (by decide)
  exact ⟨h.1, h.2.1⟩

/-! ## Claim C9 -/

/-- Claim C9: in the output of `sample_attendee_ids`, a numeric (all-digit,
non-empty) slot value never appears after a non-numeric one — i.e. every
selected ID whose string is not composed solely of digits (sort key `+∞`)
is ordered after all all-digit IDs — and the sort step itself is a
permutation, so non-numeric IDs are never dropped by the sort. -/
theorem C9_nonnumeric_sort_order (o : SampleOracle) (count : Int) (pool : List String) :
    (sampleAttendeeIds o count pool).Pairwise
      (fun a b => pyIsdigit b = true → pyIsdigit a = true) ∧
    (sortIds (selectedIdsOf o count pool)).Perm (selectedIdsOf o count pool) := by
  constructor
  · have hsorted := sortIds_sorted (selectedIdsOf o count pool)
    have hpad : (sortIds (selectedIdsOf o count pool)
        ++ List.replicate (8 - (sortIds (selectedIdsOf o count pool)).length) "").Pairwise
          idLeP := by
      rw [List.pairwise_append]
      refine ⟨hsorted, List.pairwise_replicate.mpr (Or.inr (by decide)), ?_⟩
      intro a _ b hb
      have hb' : b = "" := List.eq_of_mem_replicate hb
      subst hb'
      unfold idLeP idLe
      have hkey : idSortKey "" = none := by decide
      rw [hkey]
      cases idSortKey a <;> rfl
    have htake : (sampleAttendeeIds o count pool).Pairwise idLeP := by
      unfold sampleAttendeeIds padTo8
      exact List.Pairwise.sublist (List.take_sublist 8 _) hpad
    refine htake.imp ?_
    intro a b hab hbdig
    unfold idLeP idLe at hab
    unfold idSortKey at hab
    rw [if_pos hbdig] at hab
    by_contra ha
    rw [if_neg (by simpa using ha)] at hab
    exact absurd hab (by simp)
  · exact sortIds_perm _

/-- Witness-style instantiation of C9 at a concrete oracle, count and pool. -/
theorem C9_nonnumeric_sort_order_witness :
    (sampleAttendeeIds takeOracle 3 ["10", "x", "3"]).Pairwise
      (fun a b => pyIsdigit b = true → pyIsdigit a = true) ∧
    (sortIds (selectedIdsOf takeOracle 3 ["10", "x", "3"])).Perm
      (selectedIdsOf takeOracle 3 ["10", "x", "3"]) :=
  C9_nonnumeric_sort_order takeOracle 3 ["10", "x", "3"]

/-! ## selectors.py : `estimate_attendee_count`

Source (`src/saisonxform/selectors.py` lines 27-65).  `random.randint(a, b)`
is modelled by an oracle `randint`; amounts are modelled as rationals, and
Python `int()` (which truncates toward zero) as `intOfFloat`. -/

/-- A configured amount bracket `(lo, hi) -> {"min": attMin, "max": attMax}`. -/
structure Bracket where
  lo : Int
  hi : Int
  attMin : Int
  attMax : Int
deriving DecidableEq

/-- Validity of the `random.randint` oracle: the result of
`random.randint(a, b)` lies in the inclusive range `[a, b]`. -/
def ValidRandint (randint : Int → Int → Int) : Prop :=
  ∀ a b : Int, a ≤ b → a ≤ randint a b ∧ randint a b ≤ b

/-- Python `int(x)` applied to a number: truncation toward zero. -/
def intOfFloat (q : ℚ) : Int := if 0 ≤ q then ⌊q⌋ else ⌈q⌉

/-- Python truthiness of the `amount_brackets` argument: both `None` and an
empty dict `{}` are falsy in `if amount_brackets:`. -/
def bracketsTruthy (ob : Option (List Bracket)) : Bool :=
  match ob with
  | some bs => !bs.isEmpty
  | none => false

/-- The first bracket whose inclusive `[lo, hi]` amount range contains
`amount` (Python dicts iterate in insertion order, so the bracket table is a
list). -/
def findBracket (brackets : List Bracket) (amount : ℚ) : Option Bracket :=
  brackets.find? (fun b => decide ((b.lo : ℚ) ≤ amount ∧ amount ≤ (b.hi : ℚ)))

/-- Embedding of `estimate_attendee_count`:  mode 1 draws inside the first
matching bracket, mode 2 is the capped fallback `max(2, int(amount /
cost_per_person))`, mode 3 (no truthy bracket table) draws uniformly in
`[min_attendees, max_attendees]`. -/
def estimateAttendeeCount (randint : Int → Int → Int) (amount : ℚ)
    (min_attendees max_attendees : Int)
    (amount_brackets : Option (List Bracket)) (cost_per_person : Int) : Int :=
  if bracketsTruthy amount_brackets then
    match findBracket (amount_brackets.getD []) amount with
    | some b => randint b.attMin b.attMax
    | none => min (max 2 (intOfFloat (amount / (cost_per_person : ℚ)))) max_attendees
  else
    randint min_attendees max_attendees

/-- Truncation toward zero and flooring agree once clamped below by 2: they can
only differ on negative non-integers, where both are nonpositive. -/
theorem max_two_intOfFloat (q : ℚ) : max 2 (intOfFloat q) = max 2 ⌊q⌋ := by
  unfold intOfFloat
  by_cases h : 0 ≤ q
  · rw [if_pos h]
  · rw [if_neg h]
    push_neg at h
    have hc : ⌈q⌉ ≤ 0 := Int.ceil_le.mpr (by exact_mod_cast h.le)
    have hf : ⌊q⌋ ≤ 0 := Int.floor_nonpos h.le
    rw [max_eq_left (by omega), max_eq_left (by omega)]

/-- Deterministic `randint` oracle returning the lower bound — a possible
behaviour of `random.randint`. -/
def oLow : Int → Int → Int := fun a _ => a

theorem oLow_valid : ValidRandint oLow := fun a _ h => ⟨le_refl a, h⟩

/-! ## Claim C6 (counterexample, amended theorem, witness) -/

/-- Claim C6, counterexample: a supplied but *empty* bracket table is falsy in
Python (`if amount_brackets:`), so for `amount = 0`, `min_attendees = 5`,
`max_attendees = 8` the code draws uniformly from `[5, 8]` (here the draw
returns 5) although no bracket matched and the claim demands the fallback
value `min(max(2, floor(0/3000)), 8) = 2`.  The last conjuncts check the
modelled draw is a legitimate `randint(5, 8)` outcome. -/
theorem C6_estimate_attendee_count_counterexample :
    estimateAttendeeCount oLow 0 5 8 (some []) 3000 = 5 ∧
    (5 : Int) ≠ min (max 2 ⌊(0 : ℚ) / ((3000 : Int) : ℚ)⌋) 8 ∧
    5 ≤ oLow 5 8 ∧ oLow 5 8 ≤ 8 := by
  refine ⟨rfl, by norm_num, le_refl 5, by unfold oLow; omega⟩

/-- Claim C6, amended: for every supplied *non-empty* bracket table and every
amount contained in no bracket's inclusive range,
`estimate_attendee_count` returns `min(max(2, floor(amount/costPerPerson)),
maxAttendees)`; when the bracket search finds a bracket, the result lies in
that bracket's own attendee range; with no bracket table the result lies in
`[minAttendees, maxAttendees]`. -/
theorem C6_estimate_attendee_count_amended
    (randint : Int → Int → Int) (hr : ValidRandint randint)
    (amount : ℚ) (minA maxA cpp : Int) :
    (∀ bs : List Bracket, bs ≠ [] → 0 < cpp →
      (∀ b ∈ bs, ¬ ((b.lo : ℚ) ≤ amount ∧ amount ≤ (b.hi : ℚ))) →
      estimateAttendeeCount randint amount minA maxA (some bs) cpp
        = min (max 2 ⌊amount / (cpp : ℚ)⌋) maxA) ∧
    (∀ (bs : List Bracket) (b : Bracket), findBracket bs amount = some b →
      b.attMin ≤ b.attMax →
      b.attMin ≤ estimateAttendeeCount randint amount minA maxA (some bs) cpp ∧
      estimateAttendeeCount randint amount minA maxA (some bs) cpp ≤ b.attMax) ∧
    (minA ≤ maxA →
      minA ≤ estimateAttendeeCount randint amount minA maxA none cpp ∧
      estimateAttendeeCount randint amount minA maxA none cpp ≤ maxA) := by
  refine ⟨?_, ?_, ?_⟩
  · intro bs hbs _hcpp hnomatch
    have htruthy : bracketsTruthy (some bs) = true := by
      cases bs with
      | nil => exact absurd rfl hbs
      | cons hd tl => rfl
    unfold estimateAttendeeCount
    rw [if_pos htruthy]
    have hfind : findBracket ((some bs).getD []) amount = none := by
      apply List.find?_eq_none.mpr
      intro b hb
      simpa using hnomatch b hb
    rw [hfind]
    rw [max_two_intOfFloat]
  · intro bs b hfind hwf
    have hmem : b ∈ bs := List.mem_of_find?_eq_some hfind
    have hbs : bs ≠ [] := by rintro rfl; cases hmem
    have htruthy : bracketsTruthy (some bs) = true := by
      cases bs with
      | nil => exact absurd rfl hbs
      | cons hd tl => rfl
    unfold estimateAttendeeCount
    rw [if_pos htruthy]
    have : findBracket ((some bs).getD []) amount = some b := hfind
    rw [this]
    exact hr b.attMin b.attMax hwf
  · intro hwf
    unfold estimateAttendeeCount
    exact hr minA maxA hwf

/-- Demo bracket table used in witnesses: amounts 1000-5000 yen map to 3-6
attendees. -/
def demoBrackets : List Bracket := [⟨1000, 5000, 3, 6⟩]

/-- Witness for the amended C6 at a concrete oracle, amounts and table. -/
theorem C6_estimate_attendee_count_witness :
    estimateAttendeeCount oLow 9000 2 8 (some demoBrackets) 3000
      = min (max 2 ⌊(9000 : ℚ) / ((3000 : Int) : ℚ)⌋) 8 ∧
    (3 ≤ estimateAttendeeCount oLow 2000 2 8 (some demoBrackets) 3000 ∧
      estimateAttendeeCount oLow 2000 2 8 (some demoBrackets) 3000 ≤ 6) ∧
    (2 ≤ estimateAttendeeCount oLow 2000 2 8 none 3000 ∧
      estimateAttendeeCount oLow 2000 2 8 none 3000 ≤ 8) := by
  refine ⟨?_, ?_, ?_⟩
  · exact (C6_estimate_attendee_count_amended oLow oLow_valid 9000 2 8 3000).1
      demoBrackets (by decide) (by decide) (by norm_num [demoBrackets])
  · exact (C6_estimate_attendee_count_amended oLow oLow_valid 2000 2 8 3000).2.1
      demoBrackets ⟨1000, 5000, 3, 6⟩ (by norm_num [findBracket, demoBrackets]) (by decide)
  · exact (C6_estimate_attendee_count_amended oLow oLow_valid 2000 2 8 3000).2.2
      (by decide)

/-! ## io.py : `write_csv_utf8_bom`, output-path selection

Source (`src/saisonxform/io.py` lines 199-242).  The filesystem is modelled
by the list of existing paths plus a content map; an output path is its
directory, stem and suffix (Python `Path.parent`, `.stem`, `.suffix`). -/

/-- Decimal digits of a natural number, most significant first; fuel-recursive
so that it reduces definitionally.  Models Python `str(counter)`. -/
def natDigitsGo : Nat → Nat → List Char
  | 0, _ => []
  | fuel + 1, n =>
    if n < 10 then [Char.ofNat (48 + n)]
    else natDigitsGo fuel (n / 10) ++ [Char.ofNat (48 + n % 10)]

/-- Python `str(n)` for a natural number. -/
def pyStr (n : Nat) : String := String.mk (natDigitsGo (n + 1) n)

theorem toNat_ofNat_digit (d : Nat) (h : d < 10) :
    (Char.ofNat (48 + d)).toNat = 48 + d := by
  have hv : (48 + d).isValidChar := by
    left
    omega
  unfold Char.ofNat
  rw [dif_pos hv]
  rfl

theorem natOfDigits_append (xs : List Char) (c : Char) :
    natOfDigits (xs ++ [c]) = 10 * natOfDigits xs + (c.toNat - 48) := by
  unfold natOfDigits
  rw [List.foldl_append]
  rfl

theorem natDigitsGo_spec : ∀ (fuel n : Nat), n < fuel →
    natOfDigits (natDigitsGo fuel n) = n := by
  intro fuel
  induction fuel with
  | zero => intro n h; omega
  | succ f ih =>
    intro n h
    unfold natDigitsGo
    by_cases h10 : n < 10
    · rw [if_pos h10]
      have : natOfDigits [Char.ofNat (48 + n)] = (Char.ofNat (48 + n)).toNat - 48 := by
        unfold natOfDigits
        simp [List.foldl]
      rw [this, toNat_ofNat_digit n h10]
      omega
    · rw [if_neg h10]
      rw [natOfDigits_append]
      have hdiv : n / 10 < f := by omega
      rw [ih (n / 10) hdiv, toNat_ofNat_digit (n % 10) (by omega)]
      omega

theorem pyStr_inj : Function.Injective pyStr := by
  intro m n h
  have hd : natDigitsGo (m + 1) m = natDigitsGo (n + 1) n := congrArg String.data h
  have h2 := congrArg natOfDigits hd
  rwa [natDigitsGo_spec _ _ (by omega), natDigitsGo_spec _ _ (by omega)] at h2

/-- An output path as `write_csv_utf8_bom` manipulates it: parent directory,
stem and suffix. -/
structure OutPath where
  parent : String
  stem : String
  sfx : String
deriving DecidableEq

/-- The duplicate-probe candidate `output_path.parent / f"{stem}_{counter}{suffix}"`. -/
def candidatePath (p : OutPath) (counter : Nat) : OutPath :=
  ⟨p.parent, p.stem ++ "_" ++ pyStr counter, p.sfx⟩

theorem candidatePath_inj (p : OutPath) : Function.Injective (candidatePath p) := by
  intro c1 c2 h
  have hs : p.stem ++ "_" ++ pyStr c1 = p.stem ++ "_" ++ pyStr c2 :=
    congrArg OutPath.stem h
  have hdata := congrArg String.data hs
  rw [String.data_append, String.data_append] at hdata
  have hcancel := List.append_cancel_left hdata
  have hpy : pyStr c1 = pyStr c2 := by
    apply congrArg String.mk hcancel
  exact pyStr_inj hpy

/-- The `while True` probe loop of `write_csv_utf8_bom`: starting at counter
`c`, return the first candidate path not already existing.  The fuel
(`existing.length + 1` at the call site) is enough for the loop to find its
first-fit candidate. -/
def probeLoop (existing : List OutPath) (p : OutPath) : Nat → Nat → OutPath
  | 0, c => candidatePath p c
  | fuel + 1, c =>
    if candidatePath p c ∈ existing then probeLoop existing p fuel (c + 1)
    else candidatePath p c

/-- Output-path selection of `write_csv_utf8_bom`: probe `stem_2, stem_3, ...`
only when `handle_duplicates` is set and the destination exists. -/
def writeCsvPath (existing : List OutPath) (file_path : OutPath)
    (handle_duplicates : Bool) : OutPath :=
  if handle_duplicates ∧ file_path ∈ existing then
    probeLoop existing file_path (existing.length + 1) 2
  else file_path

/-- Embedding of `write_csv_utf8_bom`: returns the actual path written and the
updated content map (writing always stores the new content at the chosen
path, overwriting whatever was there). -/
def writeCsvU8 (contents : OutPath → Option String) (existing : List OutPath)
    (file_path : OutPath) (handle_duplicates : Bool) (content : String) :
    OutPath × (OutPath → Option String) :=
  (writeCsvPath existing file_path handle_duplicates,
   fun q => if q = writeCsvPath existing file_path handle_duplicates then some content
            else contents q)

theorem probeLoop_spec (existing : List OutPath) (p : OutPath) :
    ∀ (fuel c : Nat),
      (∃ k, k < fuel ∧ candidatePath p (c + k) ∉ existing) →
      ∃ k, probeLoop existing p fuel c = candidatePath p (c + k) ∧
        candidatePath p (c + k) ∉ existing ∧
        ∀ j, j < k → candidatePath p (c + j) ∈ existing := by
  intro fuel
  induction fuel with
  | zero =>
    rintro c ⟨k, hk, _⟩
    omega
  | succ f ih =>
    rintro c ⟨k, hk, hnot⟩
    unfold probeLoop
    by_cases hc : candidatePath p c ∈ existing
    · rw [if_pos hc]
      have hk0 : k ≠ 0 := by
        rintro rfl
        simp only [Nat.add_zero] at hnot
        exact hnot hc
      obtain ⟨k2, hres, hfree, hall⟩ := ih (c + 1) ⟨k - 1, by omega, by
        have hshift : c + 1 + (k - 1) = c + k := by omega
        rw [hshift]
        exact hnot⟩
      refine ⟨k2 + 1, ?_, ?_, ?_⟩
      · rw [hres]
        congr 1
        omega
      · have hshift : c + (k2 + 1) = c + 1 + k2 := by omega
        rw [hshift]
        exact hfree
      · intro j hj
        cases j with
        | zero => simpa using hc
        | succ j2 =>
          have hshift : c + (j2 + 1) = c + 1 + j2 := by omega
          rw [hshift]
          exact hall j2 (by omega)
    · rw [if_neg hc]
      exact ⟨0, by simp, by simpa using hc, fun j hj => absurd hj (by omega)⟩

theorem exists_free_candidate (existing : List OutPath) (p : OutPath) :
    ∃ k, k < existing.length + 1 ∧ candidatePath p (2 + k) ∉ existing := by
  by_contra hall
  push_neg at hall
  have hsub : (List.range (existing.length + 1)).map (fun k => candidatePath p (2 + k))
      ⊆ existing := by
    intro x hx
    obtain ⟨k, hk, rfl⟩ := List.mem_map.mp hx
    exact hall k (List.mem_range.mp hk)
  have hnd : ((List.range (existing.length + 1)).map
      (fun k => candidatePath p (2 + k))).Nodup := by
    apply List.Nodup.map ?_ (List.nodup_range _)
    intro a b hab
    have := candidatePath_inj p hab
    omega
  have hle := (List.subperm_of_subset hnd hsub).length_le
  simp only [List.length_map, List.length_range] at hle
  omega

/-! ## Claim C10 -/

/-- Claim C10: with `handle_duplicates=False` (the default)
`write_csv_utf8_bom` writes to exactly the given path and returns it, silently
overwriting any content already there; the `name_2, name_3, ...` suffix
probing occurs only when `handle_duplicates=True` and the destination already
exists, in which case the first free counter starting from 2 is chosen
(first-fit). -/
theorem C10_write_csv_utf8_bom_path_spec
    (contents : OutPath → Option String) (existing : List OutPath) (p : OutPath)
    (content : String) :
    (writeCsvU8 contents existing p false content).1 = p ∧
    (writeCsvU8 contents existing p false content).2 p = some content ∧
    (p ∉ existing → (writeCsvU8 contents existing p true content).1 = p) ∧
    (p ∈ existing →
      ∃ c : Nat, 2 ≤ c ∧
        (writeCsvU8 contents existing p true content).1 = candidatePath p c ∧
        candidatePath p c ∉ existing ∧
        (∀ c2, 2 ≤ c2 → c2 < c → candidatePath p c2 ∈ existing)) := by
  have hfalse : writeCsvPath existing p false = p := by
    unfold writeCsvPath
    rw [if_neg]
    rintro ⟨h, _⟩
    cases h
  refine ⟨?_, ?_, ?_, ?_⟩
  · exact hfalse
  · show (if p = writeCsvPath existing p false then some content else contents p)
      = some content
    rw [hfalse, if_pos rfl]
  · intro hp
    show writeCsvPath existing p true = p
    unfold writeCsvPath
    rw [if_neg]
    rintro ⟨_, hmem⟩
    exact hp hmem
  · intro hp
    obtain ⟨k, hres, hfree, hall⟩ :=
      probeLoop_spec existing p (existing.length + 1) 2
        (exists_free_candidate existing p)
    refine ⟨2 + k, by omega, ?_, hfree, ?_⟩
    · show writeCsvPath existing p true = candidatePath p (2 + k)
      unfold writeCsvPath
      rw [if_pos ⟨rfl, hp⟩]
      exact hres
    · intro c2 hc2 hlt
      have := hall (c2 - 2) (by omega)
      have hshift : 2 + (c2 - 2) = c2 := by omega
      rwa [hshift] at this

/-- Witness for C10: concrete filesystem in which `p` and its `_2` candidate
already exist, so probing with `handle_duplicates=True` must skip to a later
counter, while `handle_duplicates=False` overwrites `p` itself. -/
theorem C10_write_csv_utf8_bom_path_witness :
    (writeCsvU8 (fun _ => none)
      [⟨"Output", "202510_sample", ".csv"⟩,
       candidatePath ⟨"Output", "202510_sample", ".csv"⟩ 2]
      ⟨"Output", "202510_sample", ".csv"⟩ false "data").1
        = ⟨"Output", "202510_sample", ".csv"⟩ ∧
    (∃ c : Nat, 2 ≤ c ∧
      (writeCsvU8 (fun _ => none)
        [⟨"Output", "202510_sample", ".csv"⟩,
         candidatePath ⟨"Output", "202510_sample", ".csv"⟩ 2]
        ⟨"Output", "202510_sample", ".csv"⟩ true "data").1
          = candidatePath ⟨"Output", "202510_sample", ".csv"⟩ c ∧
      candidatePath ⟨"Output", "202510_sample", ".csv"⟩ c
          ∉ [(⟨"Output", "202510_sample", ".csv"⟩ : OutPath),
             candidatePath ⟨"Output", "202510_sample", ".csv"⟩ 2] ∧
      (∀ c2, 2 ≤ c2 → c2 < c →
        candidatePath ⟨"Output", "202510_sample", ".csv"⟩ c2
          ∈ [(⟨"Output", "202510_sample", ".csv"⟩ : OutPath),
             candidatePath ⟨"Output", "202510_sample", ".csv"⟩ 2])) := by
  constructor
  · exact (C10_write_csv_utf8_bom_path_spec (fun _ => none) _ _ "data").1
  · exact (C10_write_csv_utf8_bom_path_spec (fun _ => none) _ _ "data").2.2.2
      (by decide)

/-! ## month_utils.py : `archive_file`

Source (`src/saisonxform/month_utils.py` lines 164-216).  File paths are
modelled as component lists (directory components then filename); the
filesystem is the list of existing file paths.  The source file's name is
split into `stem`/`suffix` exactly as `Path.stem` / `Path.suffix` split it,
since the collision handling rebuilds the name from those parts.  `moveOk`
models whether `shutil.move` succeeds, `copyDeleteOk` whether the
`shutil.copy2` + `unlink` fallback (as a unit) succeeds;
`mkdir(parents=True, exist_ok=True)` is implicit in the path model. -/

/-- A source file: its directory components plus its name split into stem and
suffix. -/
structure SrcFile where
  dir : List String
  stem : String
  sfx : String

/-- The full path of a source file. -/
def srcPathOf (src : SrcFile) : List String := src.dir ++ [src.stem ++ src.sfx]

/-- The default destination `Archive/<month>/<original name>`. -/
def destBaseOf (archive_dir : List String) (month : String) (src : SrcFile) :
    List String :=
  archive_dir ++ [month, src.stem ++ src.sfx]

/-- The collision destination `Archive/<month>/<stem>_<timestamp><suffix>`. -/
def destTimestampedOf (archive_dir : List String) (month : String) (src : SrcFile)
    (ts : String) : List String :=
  archive_dir ++ [month, src.stem ++ "_" ++ ts ++ src.sfx]

/-- Destination chosen by `archive_file`: the timestamped name exactly when
the base destination already exists. -/
def destOf (fs : List (List String)) (archive_dir : List String) (month : String)
    (src : SrcFile) (ts : String) : List String :=
  if destBaseOf archive_dir month src ∈ fs then destTimestampedOf archive_dir month src ts
  else destBaseOf archive_dir month src

/-- The filesystem after a successful archive: source gone, destination
present. -/
def archivedFs (fs : List (List String)) (archive_dir : List String) (month : String)
    (src : SrcFile) (ts : String) : List (List String) :=
  destOf fs archive_dir month src ts :: fs.filter (fun q => q ≠ srcPathOf src)

/-- Errors `archive_file` can raise. -/
inductive ArchiveErr
  | fileNotFound
  | archivalFailure
deriving DecidableEq

/-- Embedding of `archive_file`: missing source raises `FileNotFoundError`;
otherwise try the move, fall back to copy-then-delete, and raise `OSError`
(`archivalFailure`) only when both fail. -/
def archiveFile (fs : List (List String)) (moveOk copyDeleteOk : Bool)
    (ts : String) (src : SrcFile) (archive_dir : List String) (month : String) :
    Except ArchiveErr (List (List String) × List String) :=
  if srcPathOf src ∈ fs then
    if moveOk then
      .ok (archivedFs fs archive_dir month src ts, destOf fs archive_dir month src ts)
    else if copyDeleteOk then
      .ok (archivedFs fs archive_dir month src ts, destOf fs archive_dir month src ts)
    else .error .archivalFailure
  else .error .fileNotFound

theorem name_ne_timestamped (stem sfx ts : String) :
    stem ++ sfx ≠ stem ++ "_" ++ ts ++ sfx := by
  intro h
  have hd := congrArg String.data h
  repeat rw [String.data_append] at hd
  have hlen := congrArg List.length hd
  repeat rw [List.length_append] at hlen
  have h1 : ("_" : String).data.length = 1 := rfl
  omega

theorem destOf_ne_srcPath (fs : List (List String)) (archive_dir : List String)
    (month : String) (src : SrcFile) (ts : String)
    (hsrc : srcPathOf src ∈ fs) :
    destOf fs archive_dir month src ts ≠ srcPathOf src := by
  unfold destOf
  by_cases hcoll : destBaseOf archive_dir month src ∈ fs
  · rw [if_pos hcoll]
    intro h
    have hlast := congrArg List.getLast? h
    have h1 : (destTimestampedOf archive_dir month src ts).getLast?
        = some (src.stem ++ "_" ++ ts ++ src.sfx) := by
      unfold destTimestampedOf
      have : archive_dir ++ [month, src.stem ++ "_" ++ ts ++ src.sfx]
          = (archive_dir ++ [month]) ++ [src.stem ++ "_" ++ ts ++ src.sfx] := by
        simp
      rw [this, List.getLast?_concat]
    have h2 : (srcPathOf src).getLast? = some (src.stem ++ src.sfx) := by
      unfold srcPathOf
      rw [List.getLast?_concat]
    rw [h1, h2] at hlast
    have := Option.some.injEq _ _ ▸ hlast
    exact name_ne_timestamped src.stem src.sfx ts (Option.some.inj hlast).symm
  · rw [if_neg hcoll]
    intro h
    exact hcoll (h ▸ hsrc)

/-! ## Claim C5 -/

/-- Claim C5: for every existing source file, `archive_file` (when the move or
the copy-then-delete fallback succeeds) removes the file from its original
path and creates it under `Archive/<month>/`; on a destination-name collision
it uses the timestamp-suffixed name (and the original name otherwise); it
raises the hard archival failure exactly when both the move and the
copy-then-delete fallback fail. -/
theorem C5_archive_file_spec (fs : List (List String)) (moveOk copyDeleteOk : Bool)
    (ts : String) (src : SrcFile) (archive_dir : List String) (month : String)
    (hsrc : srcPathOf src ∈ fs) :
    ((moveOk = true ∨ copyDeleteOk = true) →
      archiveFile fs moveOk copyDeleteOk ts src archive_dir month
        = .ok (archivedFs fs archive_dir month src ts, destOf fs archive_dir month src ts) ∧
      srcPathOf src ∉ archivedFs fs archive_dir month src ts ∧
      destOf fs archive_dir month src ts ∈ archivedFs fs archive_dir month src ts ∧
      (destOf fs archive_dir month src ts = destBaseOf archive_dir month src ∨
        destOf fs archive_dir month src ts = destTimestampedOf archive_dir month src ts)) ∧
    (destBaseOf archive_dir month src ∈ fs →
      destOf fs archive_dir month src ts = destTimestampedOf archive_dir month src ts) ∧
    (destBaseOf archive_dir month src ∉ fs →
      destOf fs archive_dir month src ts = destBaseOf archive_dir month src) ∧
    (moveOk = false → copyDeleteOk = false →
      archiveFile fs moveOk copyDeleteOk ts src archive_dir month
        = .error .archivalFailure) := by
  refine ⟨?_, ?_, ?_, ?_⟩
  · intro hok
    refine ⟨?_, ?_, ?_, ?_⟩
    · unfold archiveFile
      rw [if_pos hsrc]
      rcases hok with h | h
      · rw [h]
        rfl
      · cases moveOk with
        | true => rfl
        | false =>
          rw [h]
          rfl
    · unfold archivedFs
      intro hmem
      rcases List.mem_cons.mp hmem with h | h
      · exact destOf_ne_srcPath fs archive_dir month src ts hsrc h.symm
      · have := List.of_mem_filter h
        simp at this
    · exact List.mem_cons_self _ _
    · unfold destOf
      by_cases hcoll : destBaseOf archive_dir month src ∈ fs
      · rw [if_pos hcoll]
        right
        rfl
      · rw [if_neg hcoll]
        left
        rfl
  · intro hcoll
    unfold destOf
    rw [if_pos hcoll]
  · intro hcoll
    unfold destOf
    rw [if_neg hcoll]
  · intro hm hcd
    unfold archiveFile
    rw [if_pos hsrc, hm, hcd]
    rfl

/-- Witness for C5 at a concrete filesystem: the input file exists, the move
succeeds, and the failure clause is exercised with both oracles failing. -/
theorem C5_archive_file_witness :
    (archiveFile [["Input", "202510_a.csv"]] true false "20251001_120000"
        ⟨["Input"], "202510_a", ".csv"⟩ ["Archive"] "202510"
      = .ok (archivedFs [["Input", "202510_a.csv"]] ["Archive"] "202510"
          ⟨["Input"], "202510_a", ".csv"⟩ "20251001_120000",
        destOf [["Input", "202510_a.csv"]] ["Archive"] "202510"
          ⟨["Input"], "202510_a", ".csv"⟩ "20251001_120000") ∧
      srcPathOf ⟨["Input"], "202510_a", ".csv"⟩
        ∉ archivedFs [["Input", "202510_a.csv"]] ["Archive"] "202510"
            ⟨["Input"], "202510_a", ".csv"⟩ "20251001_120000") ∧
    archiveFile [["Input", "202510_a.csv"]] false false "20251001_120000"
        ⟨["Input"], "202510_a", ".csv"⟩ ["Archive"] "202510"
      = .error .archivalFailure := by
  constructor
  · have h := C5_archive_file_spec [["Input", "202510_a.csv"]] true false
      "20251001_120000" ⟨["Input"], "202510_a", ".csv"⟩ ["Archive"] "202510"
      (by decide)
    exact ⟨(h.1 (Or.inl rfl)).1, (h.1 (Or.inl rfl)).2.1⟩
  · exact (C5_archive_file_spec [["Input", "202510_a.csv"]] false false
      "20251001_120000" ⟨["Input"], "202510_a", ".csv"⟩ ["Archive"] "202510"
      (by decide)).2.2.2 rfl rfl

/-! ## cli.py : the `run` command's archival state machine

Source (`src/saisonxform/cli.py` lines 183-425).  Per-file processing
outcomes are modelled by an oracle `oc : String → FileOutcome`
(`success` = processed and archived, `failure` = recorded per-file error,
`skipped` = empty input file, which records nothing); `month_results` is an
insertion-ordered association list like a Python dict; the retry-marker
files currently present in `Archive/` are the list `markers`. -/

/-- Per-file outcome of the processing loop. -/
inductive FileOutcome
  | success
  | failure
  | skipped
deriving DecidableEq

/-- One month's entry in `month_results`: `{"succeeded": [...], "failed": [...]}`
(failed files paired with error strings in the source; the error strings do
not influence the marker logic). -/
structure MonthResult where
  succeeded : List String
  failed : List String
deriving DecidableEq

/-- Appending a file to a month's `succeeded`/`failed` list. -/
def pushResult (r : MonthResult) (f : String) (ok : Bool) : MonthResult :=
  if ok then ⟨r.succeeded ++ [f], r.failed⟩ else ⟨r.succeeded, r.failed ++ [f]⟩

/-- A fresh `month_results` entry holding a single file. -/
def initResult (f : String) (ok : Bool) : MonthResult :=
  if ok then ⟨[f], []⟩ else ⟨[], [f]⟩

/-- Record one file outcome into `month_results` (update the month's entry or
append a new one, preserving insertion order). -/
def addOutcome : List (String × MonthResult) → String → String → Bool →
    List (String × MonthResult)
  | [], m, f, ok => [(m, initResult f ok)]
  | (m2, r) :: rest, m, f, ok =>
    if m2 = m then (m2, pushResult r f ok) :: rest
    else (m2, r) :: addOutcome rest m f ok

/-- What one file contributes to `month_results`: a success or failure of a
file with a month key is recorded under that month; skipped files and files
without a month key record nothing. -/
def recordFile (oc : String → FileOutcome) (acc : List (String × MonthResult))
    (f : String) : List (String × MonthResult) :=
  match getMonthFromFilename f with
  | none => acc
  | some m =>
    match oc f with
    | .success => addOutcome acc m f true
    | .failure => addOutcome acc m f false
    | .skipped => acc

/-- The per-file loop of `run`, restricted to what it records in
`month_results`. -/
def recordAux (oc : String → FileOutcome) :
    List (String × MonthResult) → List String → List (String × MonthResult)
  | acc, [] => acc
  | acc, f :: rest => recordAux oc (recordFile oc acc f) rest

/-- The `month_results` dict at the end of the processing loop. -/
def recordOutcomes (oc : String → FileOutcome) (files : List String) :
    List (String × MonthResult) :=
  recordAux oc [] files

/-- Association-list lookup in `month_results`. -/
def assocFind : List (String × MonthResult) → String → Option MonthResult
  | [], _ => none
  | (m2, r) :: rest, m => if m2 = m then some r else assocFind rest m

/-- Effect of `create_retry_marker` on the set of marker files: the month's
marker now exists (creating or overwriting). -/
def insertMarker (markers : List String) (m : String) : List String :=
  if m ∈ markers then markers else m :: markers

/-- Effect of `delete_retry_marker`: the month's marker is gone. -/
def eraseMarker (markers : List String) (m : String) : List String :=
  markers.filter (fun x => x ≠ m)

/-- End-of-run reconciliation loop (`cli.py` lines 400-414): for each month in
`month_results`, a marker is created when it has at least one failure, and
deleted when it has no failure and at least one success. -/
def applyMarkerUpdates (markers : List String) :
    List (String × MonthResult) → List String
  | [] => markers
  | (m, r) :: rest =>
    applyMarkerUpdates
      (if r.failed ≠ [] then insertMarker markers m
       else if r.succeeded ≠ [] then eraseMarker markers m
       else markers) rest

/-! ### Lemmas about the marker and recording machinery -/

theorem mem_insertMarker (markers : List String) (m m' : String) :
    m' ∈ insertMarker markers m ↔ (m' = m ∨ m' ∈ markers) := by
  unfold insertMarker
  split
  · next h =>
    constructor
    · exact Or.inr
    · rintro (rfl | hm)
      · exact h
      · exact hm
  · exact List.mem_cons

theorem mem_eraseMarker (markers : List String) (m m' : String) :
    m' ∈ eraseMarker markers m ↔ (m' ∈ markers ∧ m' ≠ m) := by
  unfold eraseMarker
  simp [List.mem_filter]

theorem assocFind_addOutcome_self (m f : String) (ok : Bool) :
    ∀ acc : List (String × MonthResult),
      assocFind (addOutcome acc m f ok) m
        = some (match assocFind acc m with
                | some r => pushResult r f ok
                | none => initResult f ok) := by
  intro acc
  induction acc with
  | nil => simp [addOutcome, assocFind]
  | cons e rest ih =>
    obtain ⟨m2, r⟩ := e
    unfold addOutcome
    by_cases h : m2 = m
    · rw [if_pos h]
      unfold assocFind
      rw [if_pos h, if_pos h]
    · rw [if_neg h]
      unfold assocFind
      rw [if_neg h, if_neg h]
      exact ih

theorem assocFind_addOutcome_other (m f : String) (ok : Bool) (m' : String)
    (hne : m' ≠ m) :
    ∀ acc : List (String × MonthResult),
      assocFind (addOutcome acc m f ok) m' = assocFind acc m' := by
  intro acc
  induction acc with
  | nil =>
    simp only [addOutcome, assocFind]
    rw [if_neg (fun h => hne h.symm)]
  | cons e rest ih =>
    obtain ⟨m2, r⟩ := e
    unfold addOutcome
    by_cases h : m2 = m
    · rw [if_pos h]
      unfold assocFind
      rw [if_neg (by rw [h]; exact fun hEq => hne hEq.symm),
        if_neg (by rw [h]; exact fun hEq => hne hEq.symm)]
    · rw [if_neg h]
      unfold assocFind
      by_cases h2 : m2 = m'
      · rw [if_pos h2, if_pos h2]
      · rw [if_neg h2, if_neg h2]
        exact ih

theorem keys_addOutcome (m f : String) (ok : Bool) :
    ∀ acc : List (String × MonthResult),
      (addOutcome acc m f ok).map Prod.fst
        = if m ∈ acc.map Prod.fst then acc.map Prod.fst
          else acc.map Prod.fst ++ [m] := by
  intro acc
  induction acc with
  | nil => simp [addOutcome]
  | cons e rest ih =>
    obtain ⟨m2, r⟩ := e
    unfold addOutcome
    by_cases h : m2 = m
    · rw [if_pos h]
      subst h
      simp [List.map_cons]
    · rw [if_neg h]
      simp only [List.map_cons, ih]
      by_cases hm : m ∈ rest.map Prod.fst
      · rw [if_pos hm, if_pos (by simp [hm])]
      · rw [if_neg hm, if_neg (by
          simp only [List.mem_cons]
          rintro (hEq | hmem)
          · exact h hEq.symm
          · exact hm hmem)]
        simp

theorem keys_addOutcome_nodup (m f : String) (ok : Bool)
    (acc : List (String × MonthResult)) (hnd : (acc.map Prod.fst).Nodup) :
    ((addOutcome acc m f ok).map Prod.fst).Nodup := by
  rw [keys_addOutcome]
  by_cases hm : m ∈ acc.map Prod.fst
  · rw [if_pos hm]
    exact hnd
  · rw [if_neg hm]
    rw [List.nodup_append]
    exact ⟨hnd, List.nodup_singleton m, by simpa using hm⟩

theorem keys_recordAux_nodup (oc : String → FileOutcome) :
    ∀ (files : List String) (acc : List (String × MonthResult)),
      (acc.map Prod.fst).Nodup → ((recordAux oc acc files).map Prod.fst).Nodup := by
  intro files
  induction files with
  | nil => intro acc h; exact h
  | cons f rest ih =>
    intro acc h
    show ((recordAux oc (recordFile oc acc f) rest).map Prod.fst).Nodup
    apply ih
    unfold recordFile
    cases hm : getMonthFromFilename f with
    | none => exact h
    | some m =>
      cases hoc : oc f with
      | success => exact keys_addOutcome_nodup m f true acc h
      | failure => exact keys_addOutcome_nodup m f false acc h
      | skipped => exact h

/-- A month had a recorded failure this run. -/
def monthFailedThisRun (oc : String → FileOutcome) (files : List String)
    (m : String) : Prop :=
  ∃ f ∈ files, getMonthFromFilename f = some m ∧ oc f = FileOutcome.failure

/-- A month had a recorded success this run. -/
def monthSucceededThisRun (oc : String → FileOutcome) (files : List String)
    (m : String) : Prop :=
  ∃ f ∈ files, getMonthFromFilename f = some m ∧ oc f = FileOutcome.success

/-- A month was touched (recorded at all) this run. -/
def monthTouchedThisRun (oc : String → FileOutcome) (files : List String)
    (m : String) : Prop :=
  monthFailedThisRun oc files m ∨ monthSucceededThisRun oc files m

instance (oc : String → FileOutcome) (files : List String) (m : String) :
    Decidable (monthFailedThisRun oc files m) := by
  unfold monthFailedThisRun
  infer_instance

instance (oc : String → FileOutcome) (files : List String) (m : String) :
    Decidable (monthSucceededThisRun oc files m) := by
  unfold monthSucceededThisRun
  infer_instance

instance (oc : String → FileOutcome) (files : List String) (m : String) :
    Decidable (monthTouchedThisRun oc files m) := by
  unfold monthTouchedThisRun
  infer_instance

/-- The contribution of one file to month `m` of `month_results`. -/
def contribOf (oc : String → FileOutcome) (m : String) (f : String) :
    Option (String × Bool) :=
  match getMonthFromFilename f, oc f with
  | some m2, FileOutcome.success => if m2 = m then some (f, true) else none
  | some m2, FileOutcome.failure => if m2 = m then some (f, false) else none
  | _, _ => none

/-- All contributions of the processing loop to month `m`, in file order. -/
def contribsOf (oc : String → FileOutcome) (files : List String) (m : String) :
    List (String × Bool) :=
  files.filterMap (contribOf oc m)

/-- Replaying a list of contributions into a month entry. -/
def mergeRes : Option MonthResult → List (String × Bool) → Option MonthResult
  | acc, [] => acc
  | none, (f, ok) :: rest => mergeRes (some (initResult f ok)) rest
  | some r, (f, ok) :: rest => mergeRes (some (pushResult r f ok)) rest

/-- Names of the succeeded contributions. -/
def succNames (contribs : List (String × Bool)) : List String :=
  (contribs.filter (fun e => e.2 = true)).map Prod.fst

/-- Names of the failed contributions. -/
def failNames (contribs : List (String × Bool)) : List String :=
  (contribs.filter (fun e => e.2 = false)).map Prod.fst

theorem mergeRes_some_eq : ∀ (contribs : List (String × Bool)) (r : MonthResult),
    mergeRes (some r) contribs
      = some ⟨r.succeeded ++ succNames contribs, r.failed ++ failNames contribs⟩ := by
  intro contribs
  induction contribs with
  | nil =>
    intro r
    simp [mergeRes, succNames, failNames]
  | cons e rest ih =>
    intro r
    obtain ⟨f, ok⟩ := e
    cases ok with
    | true =>
      show mergeRes (some (pushResult r f true)) rest = _
      rw [ih]
      unfold pushResult
      simp [succNames, failNames, List.filter_cons]
    | false =>
      show mergeRes (some (pushResult r f false)) rest = _
      rw [ih]
      unfold pushResult
      simp [succNames, failNames, List.filter_cons]

theorem mergeRes_none_eq (contribs : List (String × Bool)) :
    mergeRes none contribs
      = if contribs = [] then none
        else some ⟨succNames contribs, failNames contribs⟩ := by
  cases contribs with
  | nil => rfl
  | cons e rest =>
    obtain ⟨f, ok⟩ := e
    rw [if_neg (by simp)]
    cases ok with
    | true =>
      show mergeRes (some (initResult f true)) rest = _
      rw [mergeRes_some_eq]
      simp [initResult, succNames, failNames, List.filter_cons]
    | false =>
      show mergeRes (some (initResult f false)) rest = _
      rw [mergeRes_some_eq]
      simp [initResult, succNames, failNames, List.filter_cons]

theorem mergeRes_nil : ∀ acc : Option MonthResult, mergeRes acc [] = acc := by
  intro acc
  cases acc <;> rfl

theorem recordAux_assoc (oc : String → FileOutcome) (m : String) :
    ∀ (files : List String) (acc : List (String × MonthResult)),
      assocFind (recordAux oc acc files) m
        = mergeRes (assocFind acc m) (contribsOf oc files m) := by
  intro files
  induction files with
  | nil =>
    intro acc
    show assocFind acc m = mergeRes (assocFind acc m) (contribsOf oc [] m)
    rw [show contribsOf oc [] m = [] from rfl, mergeRes_nil]
  | cons f rest ih =>
    intro acc
    show assocFind (recordAux oc (recordFile oc acc f) rest) m = _
    cases hm : getMonthFromFilename f with
    | none =>
      have hstep : recordFile oc acc f = acc := by
        unfold recordFile
        rw [hm]
      have hcon : contribsOf oc (f :: rest) m = contribsOf oc rest m := by
        unfold contribsOf
        rw [List.filterMap_cons]
        have hce : contribOf oc m f = none := by
          unfold contribOf
          rw [hm]
        rw [hce]
      rw [hstep, hcon]
      exact ih acc
    | some m2 =>
      cases hoc : oc f with
      | skipped =>
        have hstep : recordFile oc acc f = acc := by
          unfold recordFile
          rw [hm, hoc]
        have hcon : contribsOf oc (f :: rest) m = contribsOf oc rest m := by
          unfold contribsOf
          rw [List.filterMap_cons]
          have hce : contribOf oc m f = none := by
            unfold contribOf
            rw [hm, hoc]
          rw [hce]
        rw [hstep, hcon]
        exact ih acc
      | success =>
        have hstep : recordFile oc acc f = addOutcome acc m2 f true := by
          unfold recordFile
          rw [hm, hoc]
        by_cases hm2 : m2 = m
        · subst hm2
          have hcon : contribsOf oc (f :: rest) m2
              = (f, true) :: contribsOf oc rest m2 := by
            unfold contribsOf
            rw [List.filterMap_cons]
            have hce : contribOf oc m2 f = some (f, true) := by
              unfold contribOf
              rw [hm, hoc]
              simp
            rw [hce]
          rw [hstep, hcon, ih, assocFind_addOutcome_self]
          cases assocFind acc m2 <;> rfl
        · have hcon : contribsOf oc (f :: rest) m = contribsOf oc rest m := by
            unfold contribsOf
            rw [List.filterMap_cons]
            have hce : contribOf oc m f = none := by
              unfold contribOf
              rw [hm, hoc]
              simp [hm2]
            rw [hce]
          rw [hstep, hcon, ih,
            assocFind_addOutcome_other m2 f true m (fun h => hm2 h.symm)]
      | failure =>
        have hstep : recordFile oc acc f = addOutcome acc m2 f false := by
          unfold recordFile
          rw [hm, hoc]
        by_cases hm2 : m2 = m
        · subst hm2
          have hcon : contribsOf oc (f :: rest) m2
              = (f, false) :: contribsOf oc rest m2 := by
            unfold contribsOf
            rw [List.filterMap_cons]
            have hce : contribOf oc m2 f = some (f, false) := by
              unfold contribOf
              rw [hm, hoc]
              simp
            rw [hce]
          rw [hstep, hcon, ih, assocFind_addOutcome_self]
          cases assocFind acc m2 <;> rfl
        · have hcon : contribsOf oc (f :: rest) m = contribsOf oc rest m := by
            unfold contribsOf
            rw [List.filterMap_cons]
            have hce : contribOf oc m f = none := by
              unfold contribOf
              rw [hm, hoc]
              simp [hm2]
            rw [hce]
          rw [hstep, hcon, ih,
            assocFind_addOutcome_other m2 f false m (fun h => hm2 h.symm)]

theorem contribOf_eq_some_iff (oc : String → FileOutcome) (m f : String)
    (e : String × Bool) :
    contribOf oc m f = some e ↔
      (getMonthFromFilename f = some m ∧
        ((oc f = FileOutcome.success ∧ e = (f, true)) ∨
         (oc f = FileOutcome.failure ∧ e = (f, false)))) := by
  unfold contribOf
  cases hm : getMonthFromFilename f with
  | none => simp
  | some m2 =>
    cases hoc : oc f with
    | success =>
      by_cases h : m2 = m
      · subst h
        simp [eq_comm]
      · simp [h]
    | failure =>
      by_cases h : m2 = m
      · subst h
        simp [eq_comm]
      · simp [h]
    | skipped => simp

theorem failNames_ne_nil_iff (oc : String → FileOutcome) (files : List String)
    (m : String) :
    failNames (contribsOf oc files m) ≠ [] ↔ monthFailedThisRun oc files m := by
  unfold failNames monthFailedThisRun
  rw [ne_eq, List.map_eq_nil_iff, List.filter_eq_nil_iff]
  push_neg
  constructor
  · rintro ⟨e, hmem, he2⟩
    obtain ⟨f, hf, hcf⟩ := List.mem_filterMap.mp hmem
    rcases (contribOf_eq_some_iff oc m f e).mp hcf with ⟨hmf, (⟨hoc, rfl⟩ | ⟨hoc, rfl⟩)⟩
    · simp at he2
    · exact ⟨f, hf, hmf, hoc⟩
  · rintro ⟨f, hf, hmf, hoc⟩
    refine ⟨(f, false), List.mem_filterMap.mpr ⟨f, hf, ?_⟩, by simp⟩
    exact (contribOf_eq_some_iff oc m f (f, false)).mpr ⟨hmf, Or.inr ⟨hoc, rfl⟩⟩

theorem succNames_ne_nil_iff (oc : String → FileOutcome) (files : List String)
    (m : String) :
    succNames (contribsOf oc files m) ≠ [] ↔ monthSucceededThisRun oc files m := by
  unfold succNames monthSucceededThisRun
  rw [ne_eq, List.map_eq_nil_iff, List.filter_eq_nil_iff]
  push_neg
  constructor
  · rintro ⟨e, hmem, he2⟩
    obtain ⟨f, hf, hcf⟩ := List.mem_filterMap.mp hmem
    rcases (contribOf_eq_some_iff oc m f e).mp hcf with ⟨hmf, (⟨hoc, rfl⟩ | ⟨hoc, rfl⟩)⟩
    · exact ⟨f, hf, hmf, hoc⟩
    · simp at he2
  · rintro ⟨f, hf, hmf, hoc⟩
    refine ⟨(f, true), List.mem_filterMap.mpr ⟨f, hf, ?_⟩, by simp⟩
    exact (contribOf_eq_some_iff oc m f (f, true)).mpr ⟨hmf, Or.inl ⟨hoc, rfl⟩⟩

theorem contribs_nil_iff (oc : String → FileOutcome) (files : List String)
    (m : String) :
    contribsOf oc files m = [] ↔ ¬ monthTouchedThisRun oc files m := by
  unfold contribsOf monthTouchedThisRun monthFailedThisRun monthSucceededThisRun
  rw [List.filterMap_eq_nil_iff]
  constructor
  · intro h hOr
    rcases hOr with ⟨f, hf, hmf, hoc⟩ | ⟨f, hf, hmf, hoc⟩
    · have hc := h f hf
      have hco : contribOf oc m f = some (f, false) :=
        (contribOf_eq_some_iff oc m f (f, false)).mpr ⟨hmf, Or.inr ⟨hoc, rfl⟩⟩
      rw [hco] at hc
      cases hc
    · have hc := h f hf
      have hco : contribOf oc m f = some (f, true) :=
        (contribOf_eq_some_iff oc m f (f, true)).mpr ⟨hmf, Or.inl ⟨hoc, rfl⟩⟩
      rw [hco] at hc
      cases hc
  · intro h f hf
    cases hco : contribOf oc m f with
    | none => rfl
    | some e =>
      rcases (contribOf_eq_some_iff oc m f e).mp hco with ⟨hmf, (⟨hoc, rfl⟩ | ⟨hoc, rfl⟩)⟩
      · exact absurd (Or.inr ⟨f, hf, hmf, hoc⟩) h
      · exact absurd (Or.inl ⟨f, hf, hmf, hoc⟩) h

theorem applyUpdates_not_key (m : String) :
    ∀ (mrs : List (String × MonthResult)) (markers : List String),
      m ∉ mrs.map Prod.fst →
      (m ∈ applyMarkerUpdates markers mrs ↔ m ∈ markers) := by
  intro mrs
  induction mrs with
  | nil =>
    intro markers _
    exact Iff.rfl
  | cons e rest ih =>
    intro markers hk
    obtain ⟨m2, r⟩ := e
    simp only [List.map_cons, List.mem_cons] at hk
    push_neg at hk
    obtain ⟨hne, hk2⟩ := hk
    show m ∈ applyMarkerUpdates (if r.failed ≠ [] then insertMarker markers m2
        else if r.succeeded ≠ [] then eraseMarker markers m2 else markers) rest ↔ _
    rw [ih _ hk2]
    by_cases hf : r.failed ≠ []
    · rw [if_pos hf, mem_insertMarker]
      simp [hne]
    · rw [if_neg hf]
      by_cases hs : r.succeeded ≠ []
      · rw [if_pos hs, mem_eraseMarker]
        simp [hne]
      · rw [if_neg hs]

theorem applyUpdates_mem (m : String) :
    ∀ (mrs : List (String × MonthResult)) (markers : List String),
      (mrs.map Prod.fst).Nodup →
      (m ∈ applyMarkerUpdates markers mrs ↔
        (match assocFind mrs m with
         | some r => r.failed ≠ [] ∨ (r.failed = [] ∧ r.succeeded = [] ∧ m ∈ markers)
         | none => m ∈ markers)) := by
  intro mrs
  induction mrs with
  | nil =>
    intro markers _
    exact Iff.rfl
  | cons e rest ih =>
    intro markers hnd
    obtain ⟨m2, r⟩ := e
    simp only [List.map_cons, List.nodup_cons] at hnd
    obtain ⟨hm2, hndrest⟩ := hnd
    show m ∈ applyMarkerUpdates (if r.failed ≠ [] then insertMarker markers m2
        else if r.succeeded ≠ [] then eraseMarker markers m2 else markers) rest ↔ _
    by_cases heq : m2 = m
    · subst heq
      have hfind : assocFind ((m2, r) :: rest) m2 = some r := by
        show (if m2 = m2 then some r else assocFind rest m2) = some r
        rw [if_pos rfl]
      rw [hfind]
      rw [applyUpdates_not_key m2 rest _ hm2]
      by_cases hf : r.failed ≠ []
      · rw [if_pos hf, mem_insertMarker]
        simp [hf]
      · rw [if_neg hf]
        push_neg at hf
        by_cases hs : r.succeeded ≠ []
        · rw [if_pos hs, mem_eraseMarker]
          simp [hf, hs]
        · rw [if_neg hs]
          push_neg at hs
          simp [hf, hs]
    · have hne2 : m ≠ m2 := fun h => heq h.symm
      have hfind : assocFind ((m2, r) :: rest) m = assocFind rest m := by
        show (if m2 = m then some r else assocFind rest m) = assocFind rest m
        rw [if_neg heq]
      rw [hfind, ih _ hndrest]
      have hmm : (m ∈ (if r.failed ≠ [] then insertMarker markers m2
          else if r.succeeded ≠ [] then eraseMarker markers m2 else markers))
          ↔ m ∈ markers := by
        by_cases hf : r.failed ≠ []
        · rw [if_pos hf, mem_insertMarker]
          simp [hne2]
        · rw [if_neg hf]
          by_cases hs : r.succeeded ≠ []
          · rw [if_pos hs, mem_eraseMarker]
            simp [hne2]
          · rw [if_neg hs]
      cases hfind2 : assocFind rest m with
      | none => exact hmm
      | some r2 =>
        simp only []
        rw [hmm]

/-- Per-month effect of the end-of-run marker reconciliation: months with a
recorded failure end with a marker, months with successes only end without
one, untouched months keep their previous marker state. -/
theorem finalMarkers_spec (oc : String → FileOutcome) (files : List String)
    (markers : List String) (m : String) :
    (monthFailedThisRun oc files m →
      m ∈ applyMarkerUpdates markers (recordOutcomes oc files)) ∧
    (¬ monthFailedThisRun oc files m → monthSucceededThisRun oc files m →
      m ∉ applyMarkerUpdates markers (recordOutcomes oc files)) ∧
    (¬ monthTouchedThisRun oc files m →
      (m ∈ applyMarkerUpdates markers (recordOutcomes oc files) ↔ m ∈ markers)) := by
  have hnd : ((recordOutcomes oc files).map Prod.fst).Nodup :=
    keys_recordAux_nodup oc files [] (by simp)
  have hchar := applyUpdates_mem m (recordOutcomes oc files) markers hnd
  have hassoc : assocFind (recordOutcomes oc files) m
      = mergeRes none (contribsOf oc files m) := recordAux_assoc oc m files []
  rw [mergeRes_none_eq] at hassoc
  refine ⟨?_, ?_, ?_⟩
  · intro hfail
    have hne : contribsOf oc files m ≠ [] := by
      intro hnil
      exact (contribs_nil_iff oc files m).mp hnil (Or.inl hfail)
    rw [if_neg hne] at hassoc
    rw [hchar, hassoc]
    exact Or.inl ((failNames_ne_nil_iff oc files m).mpr hfail)
  · intro hnofail hsucc
    have hne : contribsOf oc files m ≠ [] := by
      intro hnil
      exact (contribs_nil_iff oc files m).mp hnil (Or.inr hsucc)
    rw [if_neg hne] at hassoc
    rw [hchar, hassoc]
    rintro (hf | ⟨_, hs, _⟩)
    · exact hnofail ((failNames_ne_nil_iff oc files m).mp hf)
    · exact ((succNames_ne_nil_iff oc files m).mpr hsucc) hs
  · intro huntouched
    have hnil : contribsOf oc files m = [] :=
      (contribs_nil_iff oc files m).mpr huntouched
    rw [if_pos hnil] at hassoc
    rw [hchar, hassoc]

/-! ### The `run` command itself -/

/-- Distinct month keys appearing among the files selected for processing
(`months_in_files` in `cli.py`). -/
def monthsInFiles (csvFiles : List String) : List String :=
  (csvFiles.filterMap getMonthFromFilename).dedup

/-- The already-archived months of the idempotency guard that carry no retry
marker (`months_without_retry` in `cli.py`): the guard aborts when this is
non-empty. -/
def conflictMonths (csvFiles archived markers : List String) : List String :=
  (monthsInFiles csvFiles).filter (fun m => decide (m ∈ archived ∧ m ∉ markers))

/-- Months of the files successfully archived this run (their
`Archive/<month>/` directories exist afterwards). -/
def successMonths (oc : String → FileOutcome) (csvFiles : List String) :
    List String :=
  (csvFiles.filter (fun f => oc f == FileOutcome.success)).filterMap
    getMonthFromFilename

/-- How a run ends. -/
inductive RunStatus
  | noInput
  | noMatch
  | conflict
  | completed
deriving DecidableEq

/-- Observable outcome of a run: its status, the files the processing loop
iterated over, and the final marker files and archived month directories. -/
structure RunOutcome where
  status : RunStatus
  processed : List String
  finalMarkers : List String
  finalArchived : List String
deriving DecidableEq

/-- Embedding of the `run` command (`cli.py` lines 183-425), restricted to the
observable archival state: exit early when there are no input CSV files or
none matches the requested months; abort with `AlreadyArchivedConflict` when
(without `--force`) some month among the selected files is archived and
marker-free; otherwise process every selected file and reconcile the retry
markers from the recorded per-month outcomes. -/
def run (oc : String → FileOutcome) (force : Bool)
    (inputFiles requested archived markers : List String) : RunOutcome :=
  if inputFiles = [] then ⟨.noInput, [], markers, archived⟩
  else if filterFilesByMonths inputFiles requested = [] then
    ⟨.noMatch, [], markers, archived⟩
  else if force = false ∧
      conflictMonths (filterFilesByMonths inputFiles requested) archived markers ≠ [] then
    ⟨.conflict, [], markers, archived⟩
  else
    ⟨.completed, filterFilesByMonths inputFiles requested,
      applyMarkerUpdates markers
        (recordOutcomes oc (filterFilesByMonths inputFiles requested)),
      archived ++ (successMonths oc (filterFilesByMonths inputFiles requested)).filter
        (fun m => m ∉ archived)⟩

theorem monthFailedThisRun_nil (oc : String → FileOutcome) (m : String) :
    ¬ monthFailedThisRun oc [] m := by
  simp [monthFailedThisRun]

theorem monthSucceededThisRun_nil (oc : String → FileOutcome) (m : String) :
    ¬ monthSucceededThisRun oc [] m := by
  simp [monthSucceededThisRun]

/-! ## Claim C4 -/

/-- Claim C4: at the end of every run and for every month, a month with at
least one recorded failure this run has its retry marker present
(created/overwritten); a month with zero failures and at least one success
has it deleted; a month not touched this run keeps its prior marker state
unchanged.  (An aborted run touches no month, so its markers are untouched.) -/
theorem C4_retry_marker_lifecycle (oc : String → FileOutcome) (force : Bool)
    (inputFiles requested archived markers : List String) (m : String) :
    (monthFailedThisRun oc
        (run oc force inputFiles requested archived markers).processed m →
      m ∈ (run oc force inputFiles requested archived markers).finalMarkers) ∧
    (¬ monthFailedThisRun oc
        (run oc force inputFiles requested archived markers).processed m →
      monthSucceededThisRun oc
        (run oc force inputFiles requested archived markers).processed m →
      m ∉ (run oc force inputFiles requested archived markers).finalMarkers) ∧
    (¬ monthTouchedThisRun oc
        (run oc force inputFiles requested archived markers).processed m →
      (m ∈ (run oc force inputFiles requested archived markers).finalMarkers
        ↔ m ∈ markers)) := by
  unfold run
  by_cases h1 : inputFiles = []
  · rw [if_pos h1]
    refine ⟨?_, ?_, ?_⟩
    · intro h
      exact absurd h (monthFailedThisRun_nil oc m)
    · intro _ h
      exact absurd h (monthSucceededThisRun_nil oc m)
    · intro _
      exact Iff.rfl
  · rw [if_neg h1]
    by_cases h2 : filterFilesByMonths inputFiles requested = []
    · rw [if_pos h2]
      refine ⟨?_, ?_, ?_⟩
      · intro h
        exact absurd h (monthFailedThisRun_nil oc m)
      · intro _ h
        exact absurd h (monthSucceededThisRun_nil oc m)
      · intro _
        exact Iff.rfl
    · rw [if_neg h2]
      by_cases h3 : force = false ∧
          conflictMonths (filterFilesByMonths inputFiles requested) archived markers ≠ []
      · rw [if_pos h3]
        refine ⟨?_, ?_, ?_⟩
        · intro h
          exact absurd h (monthFailedThisRun_nil oc m)
        · intro _ h
          exact absurd h (monthSucceededThisRun_nil oc m)
        · intro _
          exact Iff.rfl
      · rw [if_neg h3]
        exact finalMarkers_spec oc (filterFilesByMonths inputFiles requested) markers m

/-- Concrete processing oracle for the C4 witness: the October file fails,
everything else succeeds. -/
def demoOutcome : String → FileOutcome :=
  fun f => if f = "202510_a.csv" then .failure else .success

/-- Witness for C4: a run in which month 202510 records a failure (so its
marker is created) and month 202509 records only a success (so its
pre-existing marker is deleted). -/
theorem C4_retry_marker_lifecycle_witness :
    "202510" ∈ (run demoOutcome false ["202510_a.csv", "202509_b.csv"] []
        [] ["202509"]).finalMarkers ∧
    "202509" ∉ (run demoOutcome false ["202510_a.csv", "202509_b.csv"] []
        [] ["202509"]).finalMarkers := by
  constructor
  · exact (C4_retry_marker_lifecycle demoOutcome false
      ["202510_a.csv", "202509_b.csv"] [] [] ["202509"] "202510").1 (by decide)
  · exact (C4_retry_marker_lifecycle demoOutcome false
      ["202510_a.csv", "202509_b.csv"] [] [] ["202509"] "202509").2.1
      (by decide) (by decide)

/-! ## Claim C3 (counterexample, amended theorem, witness) -/

/-- Processing oracle in which every file succeeds. -/
def blandOutcome : String → FileOutcome := fun _ => .success

/-- Claim C3, counterexample: a requested month (202510) that is archived and
marker-free, without force, does *not* make the run raise
`AlreadyArchivedConflict` when no input file belongs to that month — the run
exits early with "no CSV files found matching specified months" (exit code 0)
before the guard runs. -/
theorem C3_already_archived_guard_counterexample :
    (run blandOutcome false ["202509_a.csv"] ["202510"] ["202510"] []).status
      = RunStatus.noMatch ∧
    (run blandOutcome false ["202509_a.csv"] ["202510"] ["202510"] []).status
      ≠ RunStatus.conflict ∧
    "202510" ∈ (["202510"] : List String) ∧
    "202510" ∉ ([] : List String) := by
  refine ⟨by decide, by decide, by decide, by decide⟩

/-- Claim C3, amended: for every run without the force flag, if some requested
month *with at least one matching input file* is archived and carries no retry
marker, the run aborts with `AlreadyArchivedConflict` before any file is
processed, leaving markers and archive state unchanged; a conflict is only
ever raised for a marker-free archived month among the selected files (so an
archived month carrying a retry marker is never the cause); with force no
conflict is raised; and the rejection is stable — running again against the
state left by the conflicting run yields the conflict again. -/
theorem C3_already_archived_guard_amended
    (oc : String → FileOutcome) (force : Bool)
    (inputFiles requested archived markers : List String) :
    (∀ m, force = false → m ∈ requested →
      (∃ f ∈ inputFiles, getMonthFromFilename f = some m) →
      m ∈ archived → m ∉ markers →
      run oc force inputFiles requested archived markers
        = ⟨.conflict, [], markers, archived⟩) ∧
    ((run oc force inputFiles requested archived markers).status = .conflict →
      force = false ∧
        ∃ m ∈ monthsInFiles (filterFilesByMonths inputFiles requested),
          m ∈ archived ∧ m ∉ markers) ∧
    (force = true →
      (run oc force inputFiles requested archived markers).status ≠ .conflict) ∧
    (∀ m, force = false → m ∈ requested →
      (∃ f ∈ inputFiles, getMonthFromFilename f = some m) →
      m ∈ archived → m ∉ markers →
      (run oc force inputFiles requested
          (run oc force inputFiles requested archived markers).finalArchived
          (run oc force inputFiles requested archived markers).finalMarkers).status
        = .conflict) := by
  have hpart1 : ∀ m, force = false → m ∈ requested →
      (∃ f ∈ inputFiles, getMonthFromFilename f = some m) →
      m ∈ archived → m ∉ markers →
      run oc force inputFiles requested archived markers
        = ⟨.conflict, [], markers, archived⟩ := by
    intro m hforce hreq ⟨f, hfin, hfm⟩ harch hnomark
    have h1 : inputFiles ≠ [] := by
      rintro rfl
      cases hfin
    have hreqne : requested ≠ [] := by
      rintro rfl
      cases hreq
    have hfmem : f ∈ filterFilesByMonths inputFiles requested := by
      unfold filterFilesByMonths
      rw [if_neg hreqne]
      apply List.mem_filter.mpr
      refine ⟨hfin, ?_⟩
      rw [hfm]
      simpa using hreq
    have h2 : filterFilesByMonths inputFiles requested ≠ [] :=
      List.ne_nil_of_mem hfmem
    have hmif : m ∈ monthsInFiles (filterFilesByMonths inputFiles requested) := by
      unfold monthsInFiles
      rw [List.mem_dedup]
      exact List.mem_filterMap.mpr ⟨f, hfmem, hfm⟩
    have hconf : m ∈ conflictMonths (filterFilesByMonths inputFiles requested)
        archived markers := by
      unfold conflictMonths
      apply List.mem_filter.mpr
      exact ⟨hmif, by simp [harch, hnomark]⟩
    have h3 : conflictMonths (filterFilesByMonths inputFiles requested)
        archived markers ≠ [] := List.ne_nil_of_mem hconf
    unfold run
    rw [if_neg h1, if_neg h2, if_pos ⟨hforce, h3⟩]
  refine ⟨hpart1, ?_, ?_, ?_⟩
  · intro hst
    unfold run at hst
    by_cases h1 : inputFiles = []
    · rw [if_pos h1] at hst
      cases hst
    · rw [if_neg h1] at hst
      by_cases h2 : filterFilesByMonths inputFiles requested = []
      · rw [if_pos h2] at hst
        cases hst
      · rw [if_neg h2] at hst
        by_cases h3 : force = false ∧
            conflictMonths (filterFilesByMonths inputFiles requested)
              archived markers ≠ []
        · obtain ⟨hforce, hconf⟩ := h3
          obtain ⟨m, hm⟩ := List.exists_mem_of_ne_nil _ hconf
          have hm2 := List.mem_filter.mp hm
          refine ⟨hforce, m, hm2.1, by simpa using hm2.2⟩
        · rw [if_neg h3] at hst
          cases hst
  · intro hforce hst
    unfold run at hst
    by_cases h1 : inputFiles = []
    · rw [if_pos h1] at hst
      cases hst
    · rw [if_neg h1] at hst
      by_cases h2 : filterFilesByMonths inputFiles requested = []
      · rw [if_pos h2] at hst
        cases hst
      · rw [if_neg h2] at hst
        rw [if_neg (by
          rintro ⟨hf, -⟩
          rw [hforce] at hf
          cases hf)] at hst
        cases hst
  · intro m hforce hreq hex harch hnomark
    rw [hpart1 m hforce hreq hex harch hnomark]
    have hagain := hpart1 m hforce hreq hex harch hnomark
    show (run oc force inputFiles requested archived markers).status = .conflict
    rw [hagain]

/-- Witness for the amended C3: a concrete conflicting run, its stability under
re-running, and the force override. -/
theorem C3_already_archived_guard_witness :
    run blandOutcome false ["202510_a.csv"] ["202510"] ["202510"] []
      = ⟨.conflict, [], [], ["202510"]⟩ ∧
    (run blandOutcome false ["202510_a.csv"] ["202510"]
        (run blandOutcome false ["202510_a.csv"] ["202510"] ["202510"] []).finalArchived
        (run blandOutcome false ["202510_a.csv"] ["202510"] ["202510"] []).finalMarkers).status
      = RunStatus.conflict ∧
    (run blandOutcome true ["202510_a.csv"] ["202510"] ["202510"] []).status
      ≠ RunStatus.conflict := by
  refine ⟨?_, ?_, ?_⟩
  · exact (C3_already_archived_guard_amended blandOutcome false ["202510_a.csv"]
      ["202510"] ["202510"] []).1 "202510" rfl (by decide)
      ⟨"202510_a.csv", by decide, by decide⟩ (by decide) (by decide)
  · exact (C3_already_archived_guard_amended blandOutcome false ["202510_a.csv"]
      ["202510"] ["202510"] []).2.2.2 "202510" rfl (by decide)
      ⟨"202510_a.csv", by decide, by decide⟩ (by decide) (by decide)
  · exact (C3_already_archived_guard_amended blandOutcome true ["202510_a.csv"]
      ["202510"] ["202510"] []).2.2.1 rfl

/-! ## io.py : `write_csv_utf8_bom` content + `read_csv_with_detection`

Source (`src/saisonxform/io.py` lines 10-21, 61-111, 114-196, 229-242).
A written file is modelled as its decoded character stream (the UTF-8 BOM and
encoding negotiation sit below this abstraction; `utf-8-sig` written content
is read back by the first fallback encoding unchanged).  `df.to_csv` /
`pd.read_csv` are modelled by a standard CSV renderer with minimal quoting
and the matching quote-aware record parser. -/

/-- A parsed CSV table as a DataFrame presents it: the header row (column
names) and the data rows. -/
structure Table where
  header : List String
  rows : List (List String)
deriving DecidableEq

/-- Whether `to_csv`'s minimal quoting must quote a field: it contains the
delimiter, the quote char, or a line-break character. -/
def needsQuote (s : String) : Bool :=
  s.data.any (fun c => c == ',' || c == '"' || c == '\n' || c == '\r')

/-- Double every quote character (CSV quote escaping). -/
def escQuotes : List Char → List Char
  | [] => []
  | c :: cs => if c = '"' then '"' :: '"' :: escQuotes cs else c :: escQuotes cs

/-- Render one field with minimal quoting. -/
def renderField (s : String) : List Char :=
  if needsQuote s then '"' :: (escQuotes s.data ++ ['"']) else s.data

/-- Render one record: comma-separated fields terminated by a newline. -/
def renderRow : List String → List Char
  | [] => ['\n']
  | [f] => renderField f ++ ['\n']
  | f :: rest => renderField f ++ ',' :: renderRow rest

/-- Render the data records. -/
def renderRows : List (List String) → List Char
  | [] => []
  | r :: rs => renderRow r ++ renderRows rs

/-- The text `df.to_csv(..., index=False)` produces: header row then data
rows. -/
def renderTable (t : Table) : List Char := renderRow t.header ++ renderRows t.rows

/-- The character stream `write_csv_utf8_bom` writes when pre-header rows are
supplied: the raw pre-header lines (each already newline-terminated from
`readlines()`), then the table. -/
def writeCsvContent (pre_header_rows : List String) (t : Table) : List Char :=
  (pre_header_rows.map String.data).flatten ++ renderTable t

/-- Parser mode of the CSV record reader: inside an unquoted field, inside a
quoted field, or just after a closing quote. -/
inductive PMode
  | plain
  | quoted
  | quotedEnd
deriving DecidableEq

/-- Parser state: completed rows (reversed), completed fields of the current
row (reversed), current field characters (reversed), and the mode. -/
structure PState where
  rows : List (List String)
  cur : List String
  fld : List Char
  mode : PMode
deriving DecidableEq

/-- One step of the CSV record reader. -/
def pstep (st : PState) (c : Char) : PState :=
  match st.mode with
  | .plain =>
    if c = ',' then ⟨st.rows, String.mk st.fld.reverse :: st.cur, [], .plain⟩
    else if c = '\n' then
      ⟨(String.mk st.fld.reverse :: st.cur).reverse :: st.rows, [], [], .plain⟩
    else if c = '"' ∧ st.fld = [] then ⟨st.rows, st.cur, [], .quoted⟩
    else ⟨st.rows, st.cur, c :: st.fld, .plain⟩
  | .quoted =>
    if c = '"' then ⟨st.rows, st.cur, st.fld, .quotedEnd⟩
    else ⟨st.rows, st.cur, c :: st.fld, .quoted⟩
  | .quotedEnd =>
    if c = '"' then ⟨st.rows, st.cur, '"' :: st.fld, .quoted⟩
    else if c = ',' then ⟨st.rows, String.mk st.fld.reverse :: st.cur, [], .plain⟩
    else if c = '\n' then
      ⟨(String.mk st.fld.reverse :: st.cur).reverse :: st.rows, [], [], .plain⟩
    else ⟨st.rows, st.cur, c :: st.fld, .plain⟩

/-- Finish parsing: emit the last record if the input did not end right after
a newline. -/
def pfinish (st : PState) : List (List String) :=
  if st.mode = PMode.plain ∧ st.fld = [] ∧ st.cur = [] then st.rows.reverse
  else ((String.mk st.fld.reverse :: st.cur).reverse :: st.rows).reverse

/-- The CSV record parser (`pd.read_csv`'s structural core). -/
def parseCsv (cs : List Char) : List (List String) :=
  pfinish (cs.foldl pstep ⟨[], [], [], .plain⟩)

/-! ### Render/parse inversion -/

theorem foldl_clean (s : List Char)
    (hclean : ∀ c ∈ s, c ≠ ',' ∧ c ≠ '"' ∧ c ≠ '\n') :
    ∀ (rows : List (List String)) (cur : List String) (fld : List Char),
      List.foldl pstep ⟨rows, cur, fld, .plain⟩ s
        = ⟨rows, cur, s.reverse ++ fld, .plain⟩ := by
  induction s with
  | nil =>
    intro rows cur fld
    simp
  | cons c cs ih =>
    intro rows cur fld
    obtain ⟨h1, h2, h3⟩ := hclean c (List.mem_cons_self c cs)
    have hstep : pstep ⟨rows, cur, fld, .plain⟩ c = ⟨rows, cur, c :: fld, .plain⟩ := by
      unfold pstep
      simp only
      rw [if_neg h1, if_neg h3, if_neg (by rintro ⟨hq, -⟩; exact h2 hq)]
    rw [List.foldl_cons, hstep, ih (fun d hd => hclean d (List.mem_cons_of_mem c hd))]
    simp

theorem foldl_escQuotes (s : List Char) :
    ∀ (rows : List (List String)) (cur : List String) (fld : List Char),
      List.foldl pstep ⟨rows, cur, fld, .quoted⟩ (escQuotes s)
        = ⟨rows, cur, s.reverse ++ fld, .quoted⟩ := by
  induction s with
  | nil =>
    intro rows cur fld
    simp [escQuotes]
  | cons c cs ih =>
    intro rows cur fld
    by_cases hq : c = '"'
    · subst hq
      show List.foldl pstep _ ('"' :: '"' :: escQuotes cs) = _
      have h1 : pstep ⟨rows, cur, fld, .quoted⟩ '"' = ⟨rows, cur, fld, .quotedEnd⟩ := by
        unfold pstep
        simp
      have h2 : pstep ⟨rows, cur, fld, .quotedEnd⟩ '"' = ⟨rows, cur, '"' :: fld, .quoted⟩ := by
        unfold pstep
        simp
      rw [List.foldl_cons, h1, List.foldl_cons, h2, ih]
      simp
    · show List.foldl pstep _ (if c = '"' then _ else c :: escQuotes cs) = _
      rw [if_neg hq]
      have h1 : pstep ⟨rows, cur, fld, .quoted⟩ c = ⟨rows, cur, c :: fld, .quoted⟩ := by
        unfold pstep
        simp only
        rw [if_neg hq]
      rw [List.foldl_cons, h1, ih]
      simp

theorem needsQuote_false_clean (f : String) (h : needsQuote f = false) :
    ∀ c ∈ f.data, c ≠ ',' ∧ c ≠ '"' ∧ c ≠ '\n' := by
  intro c hc
  unfold needsQuote at h
  rw [List.any_eq_false] at h
  have hcc := h c hc
  simp at hcc
  exact ⟨hcc.1.1.1, hcc.1.1.2, hcc.1.2⟩

theorem field_run (f : String) (rows : List (List String)) (cur : List String) :
    List.foldl pstep ⟨rows, cur, [], .plain⟩ (renderField f)
        = ⟨rows, cur, f.data.reverse, .plain⟩ ∨
    List.foldl pstep ⟨rows, cur, [], .plain⟩ (renderField f)
        = ⟨rows, cur, f.data.reverse, .quotedEnd⟩ := by
  unfold renderField
  by_cases h : needsQuote f = true
  · rw [if_pos h]
    right
    have h1 : pstep ⟨rows, cur, [], .plain⟩ '"' = ⟨rows, cur, [], .quoted⟩ := by
      unfold pstep
      simp
    rw [List.foldl_cons, h1, List.foldl_append, foldl_escQuotes]
    have h2 : pstep ⟨rows, cur, f.data.reverse ++ [], .quoted⟩ '"'
        = ⟨rows, cur, f.data.reverse ++ [], .quotedEnd⟩ := by
      unfold pstep
      simp
    show pstep ⟨rows, cur, f.data.reverse ++ [], .quoted⟩ '"' = _
    rw [h2]
    simp
  · rw [if_neg h]
    left
    have hclean := needsQuote_false_clean f (by simpa using h)
    simpa using foldl_clean f.data hclean rows cur []

theorem emit_comma (f : String) (rows : List (List String)) (cur : List String)
    (hst : List.foldl pstep ⟨rows, cur, [], .plain⟩ (renderField f)
        = ⟨rows, cur, f.data.reverse, .plain⟩ ∨
      List.foldl pstep ⟨rows, cur, [], .plain⟩ (renderField f)
        = ⟨rows, cur, f.data.reverse, .quotedEnd⟩) :
    pstep (List.foldl pstep ⟨rows, cur, [], .plain⟩ (renderField f)) ','
      = ⟨rows, f :: cur, [], .plain⟩ := by
  rcases hst with h | h <;> rw [h] <;> unfold pstep <;> simp

theorem emit_newline (f : String) (rows : List (List String)) (cur : List String)
    (hst : List.foldl pstep ⟨rows, cur, [], .plain⟩ (renderField f)
        = ⟨rows, cur, f.data.reverse, .plain⟩ ∨
      List.foldl pstep ⟨rows, cur, [], .plain⟩ (renderField f)
        = ⟨rows, cur, f.data.reverse, .quotedEnd⟩) :
    pstep (List.foldl pstep ⟨rows, cur, [], .plain⟩ (renderField f)) '\n'
      = ⟨(f :: cur).reverse :: rows, [], [], .plain⟩ := by
  rcases hst with h | h <;> rw [h] <;> unfold pstep <;> simp

theorem row_run : ∀ (fs : List String), fs ≠ [] →
    ∀ (rows : List (List String)) (cur : List String),
      List.foldl pstep ⟨rows, cur, [], .plain⟩ (renderRow fs)
        = ⟨(cur.reverse ++ fs) :: rows, [], [], .plain⟩ := by
  intro fs
  induction fs with
  | nil => intro h; exact absurd rfl h
  | cons f rest ih =>
    intro _ rows cur
    cases rest with
    | nil =>
      show List.foldl pstep _ (renderField f ++ ['\n']) = _
      rw [List.foldl_append]
      show pstep (List.foldl pstep _ (renderField f)) '\n' = _
      rw [emit_newline f rows cur (field_run f rows cur)]
      simp
    | cons f2 rest2 =>
      show List.foldl pstep _ (renderField f ++ ',' :: renderRow (f2 :: rest2)) = _
      rw [List.foldl_append, List.foldl_cons,
        emit_comma f rows cur (field_run f rows cur),
        ih (by simp) rows (f :: cur)]
      simp

theorem rows_run : ∀ (rs : List (List String)), (∀ r ∈ rs, r ≠ []) →
    ∀ rows : List (List String),
      List.foldl pstep ⟨rows, [], [], .plain⟩ (renderRows rs)
        = ⟨rs.reverse ++ rows, [], [], .plain⟩ := by
  intro rs
  induction rs with
  | nil =>
    intro _ rows
    simp [renderRows]
  | cons r rest ih =>
    intro hne rows
    show List.foldl pstep _ (renderRow r ++ renderRows rest) = _
    rw [List.foldl_append, row_run r (hne r (List.mem_cons_self r rest)) rows [],
      ih (fun q hq => hne q (List.mem_cons_of_mem r hq))]
    simp

theorem parse_render_table (t : Table) (hhdr : t.header ≠ [])
    (hrows : ∀ r ∈ t.rows, r ≠ []) :
    parseCsv (renderTable t) = t.header :: t.rows := by
  unfold parseCsv renderTable
  rw [List.foldl_append, row_run t.header hhdr [] [], rows_run t.rows hrows]
  unfold pfinish
  rw [if_pos ⟨rfl, rfl, rfl⟩]
  simp

/-! ### The read path: line splitting, header location, blank detection -/

/-- Python `readlines()`: split after each newline, keeping the newline; a
trailing chunk without a newline is kept too. -/
def splitAux : List Char → List Char → List (List Char)
  | acc, [] => if acc = [] then [] else [acc.reverse]
  | acc, c :: cs =>
    if c = '\n' then (acc.reverse ++ ['\n']) :: splitAux [] cs
    else splitAux (c :: acc) cs

/-- The lines of a character stream, newline-terminated except possibly the
last. -/
def splitLinesKeepEnds (cs : List Char) : List (List Char) := splitAux [] cs

/-- Does `needle` start `hay`? -/
def startsWithSeq : List Char → List Char → Bool
  | [], _ => true
  | _ :: _, [] => false
  | n :: ns, h :: hs => n == h && startsWithSeq ns hs

/-- Is `needle` a contiguous subsequence of `hay` (Python `needle in hay`)? -/
def containsSeq : List Char → List Char → Bool
  | needle, [] => needle.isEmpty
  | needle, c :: hs => startsWithSeq needle (c :: hs) || containsSeq needle hs

/-- The four required transaction-CSV columns (`REQUIRED_COLUMNS`). -/
def REQUIRED_COLUMNS : List String :=
  ["利用日", "ご利用店名及び商品名", "利用金額", "科目＆No."]

/-- Alias lists (`COLUMN_ALIASES`): dict lookup with default `[col]`. -/
def COLUMN_ALIASES (col : String) : List String :=
  if col = "科目＆No." then ["科目＆No.", "備考", "科目"] else [col]

/-- One line of `find_header_row`'s scan: the line matches iff for every
required column some registered alias is a literal substring of the line. -/
def lineMatches (line : List Char) : Bool :=
  REQUIRED_COLUMNS.all (fun col =>
    (COLUMN_ALIASES col).any (fun a => containsSeq a.data line))

/-- The scan of `find_header_row`, restricted to the first 20 lines. -/
def findHeaderRowAux : Nat → List (List Char) → Option Nat
  | _, [] => none
  | i, l :: ls =>
    if 20 ≤ i then none
    else if lineMatches l then some i
    else findHeaderRowAux (i + 1) ls

/-- Embedding of `find_header_row` on already-split lines. -/
def findHeaderRow (lines : List (List Char)) : Option Nat :=
  findHeaderRowAux 0 lines

/-- Python `not "".join(all_lines).strip()`: the whole content is whitespace
(or empty). -/
def pyIsBlank (cs : List Char) : Bool := cs.all (fun c => c.isWhitespace)

/-- The `header_row` the reader uses: the located index, defaulting to 0. -/
def headerRowOf (content : List Char) : Nat :=
  (findHeaderRow (splitLinesKeepEnds content)).getD 0

/-- The captured `pre_header_rows`: `all_lines[:header_row] if header_row > 0
else []`. -/
def preHeaderRowsOf (content : List Char) : List String :=
  if 0 < headerRowOf content then
    ((splitLinesKeepEnds content).take (headerRowOf content)).map String.mk
  else []

/-- Alias lookup used by the post-parse normalization (io.py line 171):
`COLUMN_ALIASES.get(required_col, [])` — note the default here is the empty
list, unlike the `[col]` default of the header scan. -/
def aliasesForRename (col : String) : List String :=
  if col = "科目＆No." then ["科目＆No.", "備考", "科目"] else []

/-- The `column_mapping` dict built by `read_csv_with_detection`
(io.py lines 166-175): for each required column absent from the parsed
header, the first registered alias present in the header maps to the
canonical name. -/
def columnMapping (cols : List String) : List (String × String) :=
  REQUIRED_COLUMNS.filterMap (fun rc =>
    if rc ∈ cols then none
    else
      match (aliasesForRename rc).find? (fun a => decide (a ∈ cols)) with
      | some a => some (a, rc)
      | none => none)

/-- `df.rename(columns=mapping)` on a single column name: replace it by its
mapped canonical name if the mapping has an entry for it. -/
def lookupRename (mapping : List (String × String)) (c : String) : String :=
  match mapping.find? (fun e => decide (e.1 = c)) with
  | some e => e.2
  | none => c

/-- The alias-to-canonical column normalization of `read_csv_with_detection`
(io.py lines 166-179) applied to the parsed header row. -/
def renameAliasColumns (cols : List String) : List String :=
  cols.map (lookupRename (columnMapping cols))

/-- Embedding of `read_csv_with_detection` on the decoded content: an
empty/whitespace-only file yields an empty table with no pre-header rows; a
file whose remaining text parses to no record at all fails for every encoding
(`ValueError`, modelled as `none`); otherwise the table from the header row
on — with alias column names normalized to their canonical names — together
with the verbatim pre-header lines.  (The missing-column check after
normalization only emits a warning, which has no observable effect here.) -/
def readCsvWithDetection (content : List Char) : Option (Table × List String) :=
  if pyIsBlank content then some (⟨[], []⟩, [])
  else
    match parseCsv (((splitLinesKeepEnds content).drop (headerRowOf content)).flatten) with
    | [] => none
    | hd :: tl => some (⟨renameAliasColumns hd, tl⟩, preHeaderRowsOf content)

/-! ### Lemmas about line splitting -/

theorem splitAux_flatten : ∀ (cs acc : List Char),
    (splitAux acc cs).flatten = acc.reverse ++ cs := by
  intro cs
  induction cs with
  | nil =>
    intro acc
    unfold splitAux
    by_cases h : acc = []
    · rw [if_pos h, h]
      simp
    · rw [if_neg h]
      simp
  | cons c cs2 ih =>
    intro acc
    unfold splitAux
    by_cases h : c = '\n'
    · rw [if_pos h]
      subst h
      simp [ih]
    · rw [if_neg h]
      rw [ih]
      simp

theorem splitAux_line : ∀ (b : List Char), '\n' ∉ b →
    ∀ (acc rest : List Char),
      splitAux acc (b ++ '\n' :: rest)
        = ((acc.reverse ++ b) ++ ['\n']) :: splitAux [] rest := by
  intro b
  induction b with
  | nil =>
    intro _ acc rest
    show (if '\n' = '\n' then (acc.reverse ++ ['\n']) :: splitAux [] rest
          else splitAux ('\n' :: acc) rest)
        = ((acc.reverse ++ []) ++ ['\n']) :: splitAux [] rest
    rw [if_pos rfl]
    simp
  | cons c b2 ih =>
    intro hnl acc rest
    have hc : c ≠ '\n' := fun h => hnl (h ▸ List.mem_cons_self c b2)
    show (if c = '\n' then (acc.reverse ++ ['\n']) :: splitAux [] (b2 ++ '\n' :: rest)
          else splitAux (c :: acc) (b2 ++ '\n' :: rest))
        = ((acc.reverse ++ c :: b2) ++ ['\n']) :: splitAux [] rest
    rw [if_neg hc]
    rw [ih (fun h => hnl (List.mem_cons_of_mem c h)) (c :: acc) rest]
    simp

theorem splitLines_preamble : ∀ (pre : List String),
    (∀ l ∈ pre, ∃ b : List Char, l.data = b ++ ['\n'] ∧ '\n' ∉ b) →
    ∀ rest : List Char,
      splitLinesKeepEnds ((pre.map String.data).flatten ++ rest)
        = pre.map String.data ++ splitLinesKeepEnds rest := by
  intro pre
  induction pre with
  | nil =>
    intro _ rest
    simp
  | cons l pre2 ih =>
    intro hpre rest
    obtain ⟨b, hb, hnb⟩ := hpre l (List.mem_cons_self l pre2)
    have hflat : ((l :: pre2).map String.data).flatten ++ rest
        = l.data ++ ((pre2.map String.data).flatten ++ rest) := by
      simp
    rw [hflat]
    unfold splitLinesKeepEnds
    rw [hb]
    rw [show (b ++ ['\n']) ++ ((pre2.map String.data).flatten ++ rest)
        = b ++ '\n' :: ((pre2.map String.data).flatten ++ rest) by simp]
    rw [splitAux_line b hnb [] _]
    have hih := ih (fun q hq => hpre q (List.mem_cons_of_mem l hq)) rest
    unfold splitLinesKeepEnds at hih
    rw [hih]
    simp [hb]

/-! ### Lemmas about header location and blankness -/

theorem startsWithSeq_subset : ∀ (n h : List Char),
    startsWithSeq n h = true → ∀ c ∈ n, c ∈ h := by
  intro n
  induction n with
  | nil =>
    intro h _ c hc
    cases hc
  | cons x ns ih =>
    intro h hs c hc
    cases h with
    | nil => cases hs
    | cons y hs2 =>
      unfold startsWithSeq at hs
      rw [Bool.and_eq_true] at hs
      obtain ⟨hxy, hrest⟩ := hs
      rcases List.mem_cons.mp hc with rfl | hc2
      · rw [beq_iff_eq] at hxy
        rw [hxy]
        exact List.mem_cons_self y hs2
      · exact List.mem_cons_of_mem y (ih hs2 hrest c hc2)

theorem containsSeq_subset : ∀ (h n : List Char),
    containsSeq n h = true → ∀ c ∈ n, c ∈ h := by
  intro h
  induction h with
  | nil =>
    intro n hc c hcn
    unfold containsSeq at hc
    rw [List.isEmpty_iff] at hc
    subst hc
    cases hcn
  | cons y hs ih =>
    intro n hc c hcn
    unfold containsSeq at hc
    rw [Bool.or_eq_true] at hc
    rcases hc with hst | hrest
    · exact startsWithSeq_subset n (y :: hs) hst c hcn
    · exact List.mem_cons_of_mem y (ih n hrest c hcn)

theorem findHeaderRowAux_ge : ∀ (ls : List (List Char)) (i j : Nat),
    findHeaderRowAux i ls = some j → i ≤ j := by
  intro ls
  induction ls with
  | nil =>
    intro i j h
    cases h
  | cons l ls2 ih =>
    intro i j h
    unfold findHeaderRowAux at h
    by_cases h20 : 20 ≤ i
    · rw [if_pos h20] at h
      cases h
    · rw [if_neg h20] at h
      by_cases hm : lineMatches l = true
      · rw [if_pos hm] at h
        have := Option.some.inj h
        omega
      · rw [if_neg hm] at h
        have := ih (i + 1) j h
        omega

theorem findHeaderRowAux_spec : ∀ (ls : List (List Char)) (i j : Nat),
    findHeaderRowAux i ls = some j →
    ∃ l, ls.get? (j - i) = some l ∧ lineMatches l = true := by
  intro ls
  induction ls with
  | nil =>
    intro i j h
    cases h
  | cons l ls2 ih =>
    intro i j h
    unfold findHeaderRowAux at h
    by_cases h20 : 20 ≤ i
    · rw [if_pos h20] at h
      cases h
    · rw [if_neg h20] at h
      by_cases hm : lineMatches l = true
      · rw [if_pos hm] at h
        have hj : j = i := (Option.some.inj h).symm
        subst hj
        exact ⟨l, by simp, hm⟩
      · rw [if_neg hm] at h
        obtain ⟨l2, hget, hlm⟩ := ih (i + 1) j h
        have hij : i + 1 ≤ j := findHeaderRowAux_ge ls2 (i + 1) j h
        refine ⟨l2, ?_, hlm⟩
        have hshift : j - i = (j - (i + 1)) + 1 := by omega
        rw [hshift]
        simpa using hget

/-! ## Claim C2 -/

/-- Claim C2: writing a table with `write_csv_utf8_bom` together with a list
of preamble lines (each newline-terminated) and then reading the written file
back with `read_csv_with_detection` yields exactly those preamble lines and
an equivalent table, for every (rectangular, non-empty-header) table whose
header row is locatable — i.e. the header scan finds the header at its actual
position.  Equivalence is the program's own notion (spec §4.3): the data rows
come back exactly and the column names come back normalized through the alias
resolution of io.py lines 166-179, so a table whose header already uses the
canonical column names round-trips to exactly itself.  In particular the
preamble round-trips unchanged. -/
theorem C2_write_read_round_trip
    (t : Table) (pre : List String)
    (hpre : ∀ l ∈ pre, ∃ b : List Char, l.data = b ++ ['\n'] ∧ '\n' ∉ b)
    (hhdr : t.header ≠ [])
    (hrect : ∀ r ∈ t.rows, r.length = t.header.length)
    (hloc : findHeaderRow (splitLinesKeepEnds (writeCsvContent pre t))
      = some pre.length) :
    readCsvWithDetection (writeCsvContent pre t)
        = some (⟨renameAliasColumns t.header, t.rows⟩, pre) ∧
    (renameAliasColumns t.header = t.header →
      readCsvWithDetection (writeCsvContent pre t) = some (t, pre)) := by
  have hsplit : splitLinesKeepEnds (writeCsvContent pre t)
      = pre.map String.data ++ splitLinesKeepEnds (renderTable t) := by
    unfold writeCsvContent
    exact splitLines_preamble pre hpre (renderTable t)
  have hhr : headerRowOf (writeCsvContent pre t) = pre.length := by
    unfold headerRowOf
    rw [hloc]
    rfl
  have hblank : ¬ (pyIsBlank (writeCsvContent pre t) = true) := by
    obtain ⟨line, hget, hlm⟩ := findHeaderRowAux_spec _ 0 pre.length hloc
    have hcontains : containsSeq "利用日".data line = true := by
      unfold lineMatches at hlm
      rw [List.all_eq_true] at hlm
      have h1 := hlm "利用日" (by decide)
      rw [List.any_eq_true] at h1
      obtain ⟨a, ha, hc⟩ := h1
      have ha2 : a = "利用日" := by
        have hal : COLUMN_ALIASES "利用日" = ["利用日"] := by decide
        rw [hal] at ha
        simpa using ha
      rwa [ha2] at hc
    have hmem : '利' ∈ line := containsSeq_subset line _ hcontains '利' (by decide)
    have hlinemem : line ∈ splitLinesKeepEnds (writeCsvContent pre t) := by
      have hg2 : (splitLinesKeepEnds (writeCsvContent pre t)).get? (pre.length - 0)
          = some line := hget
      exact List.get?_mem hg2
    have hcharmem : '利' ∈ writeCsvContent pre t := by
      have hj : (splitLinesKeepEnds (writeCsvContent pre t)).flatten
          = writeCsvContent pre t := by
        unfold splitLinesKeepEnds
        rw [splitAux_flatten]
        simp
      rw [← hj]
      exact List.mem_flatten.mpr ⟨line, hlinemem, hmem⟩
    intro hall
    unfold pyIsBlank at hall
    rw [List.all_eq_true] at hall
    have := hall '利' hcharmem
    simp at this
  have hdrop : ((splitLinesKeepEnds (writeCsvContent pre t)).drop
      (headerRowOf (writeCsvContent pre t))).flatten = renderTable t := by
    rw [hhr, hsplit]
    rw [show pre.length = (pre.map String.data).length by simp, List.drop_left]
    unfold splitLinesKeepEnds
    rw [splitAux_flatten]
    simp
  have hrows_ne : ∀ r ∈ t.rows, r ≠ [] := by
    intro r hr hnil
    have hlen := hrect r hr
    rw [hnil] at hlen
    simp at hlen
    exact hhdr (List.length_eq_zero.mp hlen.symm)
  have hpreOut : preHeaderRowsOf (writeCsvContent pre t) = pre := by
    unfold preHeaderRowsOf
    rw [hhr]
    by_cases hp : 0 < pre.length
    · rw [if_pos hp, hsplit]
      rw [show pre.length = (pre.map String.data).length by simp, List.take_left]
      rw [List.map_map]
      have hcomp : String.mk ∘ String.data = id := funext (fun s => rfl)
      rw [hcomp, List.map_id]
    · rw [if_neg hp]
      have hnil : pre = [] := by
        cases pre with
        | nil => rfl
        | cons a l => simp at hp
      exact hnil.symm
  have hmain : readCsvWithDetection (writeCsvContent pre t)
      = some (⟨renameAliasColumns t.header, t.rows⟩, pre) := by
    unfold readCsvWithDetection
    rw [if_neg hblank, hdrop, parse_render_table t hhdr hrows_ne]
    show (some (⟨renameAliasColumns t.header, t.rows⟩, preHeaderRowsOf (writeCsvContent pre t))
        : Option (Table × List String))
        = some (⟨renameAliasColumns t.header, t.rows⟩, pre)
    rw [hpreOut]
  refine ⟨hmain, ?_⟩
  intro hcanon
  rw [hmain, hcanon]

/-- The spec's example preamble: a statement banner, a period line, and a
blank line, each newline-terminated. -/
def demoPre : List String := ["Statement\n", "Period: 2025-10\n", "\n"]

/-- The spec's example table: the four required columns plus one data row. -/
def demoTable : Table :=
  ⟨["利用日", "ご利用店名及び商品名", "利用金額", "科目＆No."],
   [["2025-10-01", "東京レストラン", "15000", "会議費"]]⟩

/-- The same table with the category column under its alias `備考` — locatable
by the alias-aware header scan, and renamed to the canonical name on read. -/
def demoAliasTable : Table :=
  ⟨["利用日", "ご利用店名及び商品名", "利用金額", "備考"],
   [["2025-10-01", "東京レストラン", "15000", "会議費"]]⟩

theorem demoPre_newline_terminated :
    ∀ l ∈ demoPre, ∃ b : List Char, l.data = b ++ ['\n'] ∧ '\n' ∉ b := by
  intro l hl
  simp only [demoPre, List.mem_cons, List.not_mem_nil, or_false] at hl
  rcases hl with rfl | rfl | rfl
  · exact ⟨"Statement".data, by decide, by decide⟩
  · exact ⟨"Period: 2025-10".data, by decide, by decide⟩
  · exact ⟨[], by decide, by decide⟩

/-- Witness for C2 at the spec's example: with the canonical header the three
preamble lines and the header-plus-one-row table round-trip exactly; with the
`備考`-aliased header the preamble still round-trips exactly and the table
comes back with the alias normalized to `科目＆No.`. -/
theorem C2_write_read_round_trip_witness :
    readCsvWithDetection (writeCsvContent demoPre demoTable)
      = some (demoTable, demoPre) ∧
    readCsvWithDetection (writeCsvContent demoPre demoAliasTable)
      = some (⟨renameAliasColumns demoAliasTable.header, demoAliasTable.rows⟩, demoPre) ∧
    renameAliasColumns demoAliasTable.header
      = ["利用日", "ご利用店名及び商品名", "利用金額", "科目＆No."] := by
  refine ⟨?_, ?_, by decide⟩
  · exact (C2_write_read_round_trip demoTable demoPre demoPre_newline_terminated
      (by decide) (by decide) (by decide)).2 (by decide)
  · exact (C2_write_read_round_trip demoAliasTable demoPre demoPre_newline_terminated
      (by decide) (by decide) (by decide)).1

end SaisonXForm
